import Mathlib

/-!
Verification development for the Program Nova task-execution engine.

This file gives a shallow embedding, in Lean, of the core of the engine:

* `program_nova/engine/parser.py` — the `DAG` class: cycle validation by
  depth-first search and ready-set computation (`get_ready_tasks`);
* `program_nova/engine/state.py` — the `StateManager` mutation operations on
  the shared JSON state document;
* `program_nova/engine/worker.py` — the `Worker` status machine and the
  line-by-line token-usage extraction from captured logs;
* `program_nova/engine/orchestrator.py` — the scheduler loop (monitor /
  admit steps) as a pure transition function driven by oracles for the
  process-level events (exit codes, token counts, timestamps);
* `program_nova/dashboard/rollup.py` — status and metric rollups.

Python dictionaries are embedded as association lists (insertion ordered,
keys unique), machine integers as `Int`/`Nat`, JSON numbers arising in token
accounting as `Int`, floating-point cost arithmetic as exact rationals, and
fallible code as `Except String`.
-/

namespace Nova

/-! ### Token usage counters (shared by worker, state store and rollup) -/

/-- The four token counters tracked throughout the engine
(`input_tokens`, `output_tokens`, `cache_read_tokens`, `cache_creation_tokens`). -/
structure TokenUsage where
  input_tokens : Int
  output_tokens : Int
  cache_read_tokens : Int
  cache_creation_tokens : Int
deriving Repr, DecidableEq

/-- All-zero token counters, the initial value everywhere in the engine. -/
def TokenUsage.zero : TokenUsage := ⟨0, 0, 0, 0⟩

/-! ### Task status (`state.py`, `TaskStatus` enum) -/

/-- `TaskStatus` enumeration from `state.py`. -/
inductive TaskStatus where
  | pending
  | in_progress
  | completed
  | failed
deriving Repr, DecidableEq

/-- The `.value` of a `TaskStatus` member: the string stored in the JSON document. -/
def TaskStatus.value : TaskStatus → String
  | .pending => "pending"
  | .in_progress => "in_progress"
  | .completed => "completed"
  | .failed => "failed"

/-! ### State document (`state.py`, schema in the `StateManager` docstring) -/

/-- One task record of the state document (`state.py` schema). -/
structure TaskRecord where
  status : String
  worker_id : Option String
  pid : Option Int
  started_at : Option String
  completed_at : Option String
  duration_seconds : Int
  current_step : Option String
  token_usage : TokenUsage
  error : Option String
  commit_sha : Option String
  files_changed : List String
deriving Repr, DecidableEq

/-- `StateManager._get_empty_task`. -/
def emptyTask : TaskRecord :=
  { status := TaskStatus.pending.value
    worker_id := none
    pid := none
    started_at := none
    completed_at := none
    duration_seconds := 0
    current_step := none
    token_usage := TokenUsage.zero
    error := none
    commit_sha := none
    files_changed := [] }

/-- The `project` object of the state document. -/
structure ProjectInfo where
  name : String
  cascade_file : String
  started_at : Option String
  completed_at : Option String
deriving Repr, DecidableEq

/-- The whole state document: `{project: ..., tasks: {id: TaskRecord}}`.
The `tasks` Python dict is an insertion-ordered association list. -/
structure StateDoc where
  project : ProjectInfo
  tasks : List (String × TaskRecord)
deriving Repr, DecidableEq

/-- `StateManager._get_empty_state`. -/
def emptyState (project_name cascade_file : String) : StateDoc :=
  { project := { name := project_name, cascade_file := cascade_file
                 started_at := none, completed_at := none }
    tasks := [] }

/-- Association-list lookup, the embedding of Python `dict.get`. -/
def assocGet {α : Type} (m : List (String × α)) (k : String) : Option α :=
  (m.find? (fun p => p.1 == k)).map Prod.snd

/-- Association-list store, the embedding of Python `dict[k] = v`
(replace in place when the key exists, append otherwise). -/
def assocSet {α : Type} (m : List (String × α)) (k : String) (v : α) :
    List (String × α) :=
  if m.any (fun p => p.1 == k) then
    m.map (fun p => if p.1 == k then (k, v) else p)
  else
    m ++ [(k, v)]

/-- The get-or-create step shared by every `StateManager` task updater:
`if task_id not in state["tasks"]: state["tasks"][task_id] = _get_empty_task()`. -/
def getOrEmptyTask (doc : StateDoc) (task_id : String) : TaskRecord :=
  (assocGet doc.tasks task_id).getD emptyTask

/-- `StateManager.update_task`: each keyword argument is applied only when
provided (Python `None` default ↦ `Option.none`). -/
def updateTask (doc : StateDoc) (task_id : String)
    (status : Option TaskStatus := none) (worker_id : Option String := none)
    (pid : Option Int := none) (started_at : Option String := none)
    (current_step : Option String := none) : StateDoc :=
  let task := getOrEmptyTask doc task_id
  let task := match status with
    | some s => { task with status := s.value }
    | none => task
  let task := match worker_id with
    | some w => { task with worker_id := some w }
    | none => task
  let task := match pid with
    | some p => { task with pid := some p }
    | none => task
  let task := match started_at with
    | some s => { task with started_at := some s }
    | none => task
  let task := match current_step with
    | some c => { task with current_step := some c }
    | none => task
  { doc with tasks := assocSet doc.tasks task_id task }

/-- `StateManager.update_task_tokens`. -/
def updateTaskTokens (doc : StateDoc) (task_id : String)
    (input_tokens : Option Int := none) (output_tokens : Option Int := none)
    (cache_read_tokens : Option Int := none)
    (cache_creation_tokens : Option Int := none) : StateDoc :=
  let task := getOrEmptyTask doc task_id
  let tok := task.token_usage
  let tok := match input_tokens with
    | some n => { tok with input_tokens := n }
    | none => tok
  let tok := match output_tokens with
    | some n => { tok with output_tokens := n }
    | none => tok
  let tok := match cache_read_tokens with
    | some n => { tok with cache_read_tokens := n }
    | none => tok
  let tok := match cache_creation_tokens with
    | some n => { tok with cache_creation_tokens := n }
    | none => tok
  { doc with tasks := assocSet doc.tasks task_id { task with token_usage := tok } }

/-- `StateManager.complete_task`. -/
def completeTask (doc : StateDoc) (task_id : String) (completed_at : String)
    (duration_seconds : Int) (commit_sha : Option String := none)
    (files_changed : Option (List String) := none) : StateDoc :=
  let task := getOrEmptyTask doc task_id
  let task := { task with
    status := TaskStatus.completed.value
    completed_at := some completed_at
    duration_seconds := duration_seconds }
  let task := match commit_sha with
    | some c => { task with commit_sha := some c }
    | none => task
  let task := match files_changed with
    | some fs => { task with files_changed := fs }
    | none => task
  { doc with tasks := assocSet doc.tasks task_id task }

/-- `StateManager.fail_task`; `now` is the `datetime.now(timezone.utc)` timestamp
the Python code stores into `completed_at`. -/
def failTask (doc : StateDoc) (task_id : String) (error : String)
    (now : String) : StateDoc :=
  let task := getOrEmptyTask doc task_id
  let task := { task with
    status := TaskStatus.failed.value
    error := some error
    completed_at := some now }
  { doc with tasks := assocSet doc.tasks task_id task }

/-- `StateManager.update_project`. -/
def updateProject (doc : StateDoc) (started_at : Option String := none)
    (completed_at : Option String := none) : StateDoc :=
  let proj := doc.project
  let proj := match started_at with
    | some s => { proj with started_at := some s }
    | none => proj
  let proj := match completed_at with
    | some c => { proj with completed_at := some c }
    | none => proj
  { doc with project := proj }

/-- The status stored for `task_id` (`"pending"` when the record is absent,
as every reader of the document defaults it). -/
def docStatus (doc : StateDoc) (task_id : String) : String :=
  ((assocGet doc.tasks task_id).map TaskRecord.status).getD "pending"

/-! ### Durable file model for `initialize` (`state.py` / `orchestrator.py`) -/

/-- The state file as seen through `StateManager`: `none` when the file does
not exist, `some doc` when it holds the JSON document `doc`. -/
abbrev StateFile : Type := Option StateDoc

/-- `StateManager.initialize`: builds a fresh empty state and writes it with
`_write_state`, which opens the file with mode `"w"` — the previous content,
if any, is truncated unconditionally. -/
def smInitialize (_fs : StateFile) (project_name cascade_file : String) :
    StateFile :=
  some (emptyState project_name cascade_file)

/-- The state-file setup in `Orchestrator.__init__`: only when the state file
does not exist, call `initialize` and then mark every parsed task pending. -/
def orchInitStateFile (fs : StateFile) (project_name cascade_file : String)
    (task_ids : List String) : StateFile :=
  match fs with
  | some doc => some doc
  | none =>
      let fs := smInitialize none project_name cascade_file
      match fs with
      | none => none
      | some doc =>
          some (task_ids.foldl
            (fun d tid => updateTask d tid (some TaskStatus.pending) none none none none) doc)

/-! ### Task graph (`parser.py`) -/

/-- One `task_info` dictionary built by `CascadeParser.parse` (the fields the
engine reads; `id` is the association-list key). -/
structure TaskInfo where
  name : String
  description : String
  depends_on : List String
  group : String
  branch : String
deriving Repr, DecidableEq

/-- The `tasks` dictionary `task_id -> task_info` handed to `DAG.__init__`,
as an insertion-ordered association list with unique keys. -/
abbrev Tasks : Type := List (String × TaskInfo)

/-- Python `self.tasks.get(task_id)` on the task dictionary. -/
def lookupTask (tasks : Tasks) (t : String) : Option TaskInfo :=
  (tasks.find? (fun p => p.1 == t)).map Prod.snd

/-- The key list of the task dictionary. -/
def taskIds (tasks : Tasks) : List String := tasks.map Prod.fst

/-- Python `t in self.tasks`. -/
def hasTask (tasks : Tasks) (t : String) : Bool :=
  tasks.any (fun p => p.1 == t)

/-- Python `self.tasks.get(task_id, default dict).get(key depends_on, default [])`. -/
def depsOf (tasks : Tasks) (t : String) : List String :=
  ((lookupTask tasks t).map TaskInfo.depends_on).getD []

/-- Python `completed_tasks.get(d)` on the status map passed to
`DAG.get_ready_tasks` (`some s` exactly when `d in completed_tasks`
with `completed_tasks[d] = s`). -/
def statusOf (m : List (String × String)) (d : String) : Option String :=
  (m.find? (fun p => p.1 == d)).map Prod.snd

/-- `DAG.get_ready_tasks(completed_tasks)`: iterate the task dictionary in
order; skip a task present in `completed_tasks`; keep it when every
`depends_on` entry is present in `completed_tasks` with status
`completed`. -/
def getReadyTasks (tasks : Tasks) (completed_tasks : List (String × String)) :
    List String :=
  tasks.filterMap (fun p =>
    if (statusOf completed_tasks p.1).isSome then none
    else if p.2.depends_on.all
        (fun d => statusOf completed_tasks d == some "completed") then
      some p.1
    else none)

/-! ### Cycle validation (`parser.py`, `DAG._validate_no_cycles`)

The Python `has_cycle` inner function does a depth-first search over the
mutable sets `visited` and `rec_stack`.  The embedding threads the two sets
as an explicit state and uses a fuel argument for termination; fuel
`tasks.length + 1` is shown below to be large enough that the exhaustion
branch is never taken. -/

/-- The mutable `visited` / `rec_stack` pair of `_validate_no_cycles`.
`recStack` is kept in push order, most recent first. -/
structure DfsState where
  visited : List String
  recStack : List String
deriving Repr, DecidableEq

/-- The dependency loop body of `has_cycle`: iterate the `depends_on` list,
skip unregistered dependencies (`if dep not in self.tasks: continue`), recurse
through `f` and short-circuit on a detected cycle. -/
def goDeps (tasks : Tasks) (f : String → DfsState → Bool × DfsState) :
    List String → DfsState → Bool × DfsState
  | [], st => (false, st)
  | d :: ds, st =>
    if hasTask tasks d then
      match f d st with
      | (true, st') => (true, st')
      | (false, st') => goDeps tasks f ds st'
    else goDeps tasks f ds st

/-- The recursive `has_cycle(task_id)` of `_validate_no_cycles`, with fuel.
On the `True` return after finding `task_id` on the recursion stack the
Python code raises immediately, so the dirty `rec_stack` it leaves behind is
never observed; the embedding returns it unchanged. -/
def hasCycleF (tasks : Tasks) : Nat → String → DfsState → Bool × DfsState
  | 0, _, st => (true, st)
  | fuel + 1, t, st =>
    if t ∈ st.recStack then (true, st)
    else if t ∈ st.visited then (false, st)
    else
      match goDeps tasks (hasCycleF tasks fuel) (depsOf tasks t)
          ⟨t :: st.visited, t :: st.recStack⟩ with
      | (true, st2) => (true, st2)
      | (false, st2) => (false, ⟨st2.visited, st2.recStack.erase t⟩)

/-- The error message raised on detection
(`f"Cyclic dependency detected involving task {task_id}"`). -/
def cycleMsg (t : String) : String :=
  "Cyclic dependency detected involving task " ++ t

/-- The outer loop of `_validate_no_cycles`:
`for task_id in self.tasks: if task_id not in visited: if has_cycle(...)`. -/
def validateGo (tasks : Tasks) : List String → DfsState → Except String Unit
  | [], _ => .ok ()
  | t :: ts, st =>
    if t ∈ st.visited then validateGo tasks ts st
    else
      match hasCycleF tasks (tasks.length + 1) t st with
      | (true, _) => .error (cycleMsg t)
      | (false, st') => validateGo tasks ts st'

/-- `DAG._validate_no_cycles`. -/
def validateNoCycles (tasks : Tasks) : Except String Unit :=
  validateGo tasks (taskIds tasks) ⟨[], []⟩

/-- The `DAG` object: `__init__` stores the task dictionary and raises
`ValueError` out of the constructor when validation detects a cycle (so no
`DAG` value is ever produced for a cyclic input). -/
structure DAG where
  tasks : Tasks
deriving Repr

/-- `DAG(tasks)` construction, `ValueError` embedded as `Except.error`. -/
def DAG.build (tasks : Tasks) : Except String DAG :=
  match validateNoCycles tasks with
  | .error e => .error e
  | .ok _ => .ok ⟨tasks⟩

/-! ### The dependency relation and cycles, for specification -/

/-- The edge relation the cycle validation walks: `Edge tasks a b` holds when
`b` is a registered dependency of `a` (unregistered ids are skipped by both
the validation and the claim). -/
def Edge (tasks : Tasks) (a b : String) : Prop :=
  b ∈ depsOf tasks a ∧ b ∈ taskIds tasks

/-- A dependency cycle among registered tasks. -/
def HasCycle (tasks : Tasks) : Prop :=
  ∃ u, Relation.TransGen (Edge tasks) u u

/-- `t` has a (possibly empty) dependency path to some task lying on a
dependency cycle — `t` is implicated in that cycle. -/
def ReachesCycle (tasks : Tasks) (t : String) : Prop :=
  ∃ u, Relation.ReflTransGen (Edge tasks) t u ∧ Relation.TransGen (Edge tasks) u u

/-- The task id the raised error would be blamed on when the search rooted at
`t` with recursion stack `st.recStack` finds a cycle: the root of the current
depth-first search tree (the bottom of the stack, or `t` when the stack is
empty). -/
def dfsRoot (st : DfsState) (t : String) : String :=
  st.recStack.getLastD t

/-- Fuel bound used by the termination argument: strictly more fuel than
there are unvisited registered tasks. -/
def SuffFuel (tasks : Tasks) (fuel : Nat) (st : DfsState) : Prop :=
  ((taskIds tasks).filter (fun x => !st.visited.contains x)).length < fuel

/-- The invariant the depth-first search maintains: the recursion stack is a
duplicate-free chain of dependency edges inside the visited set, visited
nodes are registered, and every finished (visited, off-stack) node has no
path to a cycle. -/
structure DfsInv (tasks : Tasks) (st : DfsState) : Prop where
  stack_sub : ∀ x ∈ st.recStack, x ∈ st.visited
  visited_keys : ∀ x ∈ st.visited, x ∈ taskIds tasks
  stack_chain : st.recStack.Chain' (fun a b => Edge tasks b a)
  stack_nodup : st.recStack.Nodup
  black_safe : ∀ x ∈ st.visited, x ∉ st.recStack → ¬ ReachesCycle tasks x

/-- Precondition of each `has_cycle(t)` call: `t` is registered, and when the
recursion stack is nonempty its top has a dependency edge to `t`. -/
def CallPre (tasks : Tasks) (t : String) (st : DfsState) : Prop :=
  t ∈ taskIds tasks
  ∧ (st.recStack = []
      ∨ ∃ h rest, st.recStack = h :: rest ∧ Edge tasks h t)

/-! ### Worker (`worker.py`) -/

/-- `WorkerStatus` enumeration from `worker.py`. -/
inductive WorkerStatus where
  | pending
  | running
  | completed
  | failed
deriving Repr, DecidableEq

/-- The OS process handle behind a worker, reduced to what the worker ever
observes of it: `Popen.poll()` — `none` while running, `some code` once the
process has exited with `code`. -/
structure ProcHandle where
  exit : Option Int
deriving Repr, DecidableEq

/-- The `Worker` object state the claims are about. -/
structure WorkerState where
  status : WorkerStatus
  process : Option ProcHandle
  pid : Option Int
deriving Repr, DecidableEq

/-- `Worker.is_alive()`. -/
def WorkerState.isAlive (w : WorkerState) : Bool :=
  match w.process with
  | none => false
  | some p => p.exit.isNone

/-- `Worker.get_exit_code()`. -/
def WorkerState.getExitCode (w : WorkerState) : Option Int :=
  match w.process with
  | none => none
  | some p => p.exit

/-- Post-state of `Worker.wait()`: `process.wait(timeout=...)` blocks until
the process exits and returns its exit code `code` (timeout expiry raises out
of the method before any mutation); the method then sets the status from the
exit code. Blocking itself is a real-time process property, so the embedding
takes the delivered exit code as an argument. -/
def WorkerState.waitPost (w : WorkerState) (code : Int) : WorkerState :=
  { w with
    status := if code = 0 then WorkerStatus.completed else WorkerStatus.failed
    process := some ⟨some code⟩ }

/-! ### Token-usage extraction (`worker.py`, `_parse_token_usage_from_log`)

The log is read line by line, each line fed to `json.loads`.  The embedding
takes the log as the list of per-line parse outcomes: `none` for a line on
which `json.loads` raises `JSONDecodeError` (the only exception the code
catches, besides the outer `IOError`), `some v` for a line parsing to the
JSON value `v`.  The subsequent dynamically-typed Python operations
(`"usage" in data`, `data["usage"]`, `.get(...)`, `+=`, `.items()`) are
embedded with their error behaviour, since exceptions other than
`JSONDecodeError` propagate out of the method. -/

/-- A parsed JSON value (`json.loads` output; numbers restricted to the
integers arising in token accounting). -/
inductive JVal where
  | null
  | bool (b : Bool)
  | num (n : Int)
  | str (s : String)
  | arr (xs : List JVal)
  | obj (kvs : List (String × JVal))

/-- Whether a JSON value equals the Python string `k` (element comparison for
`k in list`). -/
def JVal.eqStr (v : JVal) (k : String) : Bool :=
  match v with
  | .str s => s == k
  | _ => false

/-- Substring test on character lists (Python `k in s` for strings). -/
def hasSubstringChars (pat : List Char) : List Char → Bool
  | [] => pat.isEmpty
  | c :: rest => pat.isPrefixOf (c :: rest) || hasSubstringChars pat rest

/-- Python `k in v`: key membership for dicts, substring for strings, element
membership for lists, `TypeError` for non-containers. -/
def pyContains (k : String) (v : JVal) : Except String Bool :=
  match v with
  | .obj kvs => .ok (kvs.any (fun p => p.1 == k))
  | .str s => .ok (hasSubstringChars k.toList s.toList)
  | .arr xs => .ok (xs.any (fun x => x.eqStr k))
  | .num _ => .error "TypeError: argument of type int is not iterable"
  | .bool _ => .error "TypeError: argument of type bool is not iterable"
  | .null => .error "TypeError: argument of type NoneType is not iterable"

/-- Python `v[k]` for a string key. -/
def pySubscript (v : JVal) (k : String) : Except String JVal :=
  match v with
  | .obj kvs =>
      match (kvs.find? (fun p => p.1 == k)).map Prod.snd with
      | some x => .ok x
      | none => .error ("KeyError: " ++ k)
  | .str _ => .error "TypeError: string indices must be integers"
  | .arr _ => .error "TypeError: list indices must be integers"
  | _ => .error "TypeError: object is not subscriptable"

/-- Python `v.get(k, d)` — only dicts have `.get`. -/
def pyGetDefault (v : JVal) (k : String) (d : JVal) : Except String JVal :=
  match v with
  | .obj kvs => .ok (((kvs.find? (fun p => p.1 == k)).map Prod.snd).getD d)
  | _ => .error "AttributeError: object has no attribute get"

/-- Python `v.items()` — only dicts have `.items`. -/
def pyItems (v : JVal) : Except String (List (String × JVal)) :=
  match v with
  | .obj kvs => .ok kvs
  | _ => .error "AttributeError: object has no attribute items"

/-- Python `acc + v` for an integer accumulator (`True`/`False` count as
1/0, anything non-numeric is a `TypeError`). -/
def pyAddInt (acc : Int) (v : JVal) : Except String Int :=
  match v with
  | .num n => .ok (acc + n)
  | .bool b => .ok (acc + if b then 1 else 0)
  | _ => .error "TypeError: unsupported operand type for +"

/-- The four `totals[...] += usage.get(..., 0)` statements of the
`"usage"` branch, in source order. -/
def accumFlatUsage (t : TokenUsage) (usage : JVal) : Except String TokenUsage := do
  let i ← pyGetDefault usage "input_tokens" (.num 0) >>= pyAddInt t.input_tokens
  let o ← pyGetDefault usage "output_tokens" (.num 0) >>= pyAddInt t.output_tokens
  let cr ← pyGetDefault usage "cache_read_input_tokens" (.num 0) >>=
    pyAddInt t.cache_read_tokens
  let cc ← pyGetDefault usage "cache_creation_input_tokens" (.num 0) >>=
    pyAddInt t.cache_creation_tokens
  pure ⟨i, o, cr, cc⟩

/-- The four `totals[...] += model_usage.get(..., 0)` statements of the
`"modelUsage"` branch body, for one model entry. -/
def accumModelUsage (t : TokenUsage) (model_usage : JVal) :
    Except String TokenUsage := do
  let i ← pyGetDefault model_usage "inputTokens" (.num 0) >>= pyAddInt t.input_tokens
  let o ← pyGetDefault model_usage "outputTokens" (.num 0) >>= pyAddInt t.output_tokens
  let cr ← pyGetDefault model_usage "cacheReadInputTokens" (.num 0) >>=
    pyAddInt t.cache_read_tokens
  let cc ← pyGetDefault model_usage "cacheCreationInputTokens" (.num 0) >>=
    pyAddInt t.cache_creation_tokens
  pure ⟨i, o, cr, cc⟩

/-- Processing of one successfully parsed line inside the `try` block:
`if "usage" in data: ... elif "modelUsage" in data: ...`.  Only
`json.JSONDecodeError` is caught there, so any `TypeError`/`AttributeError`
raised by these operations propagates. -/
def processParsedLine (t : TokenUsage) (data : JVal) : Except String TokenUsage := do
  let hasUsage ← pyContains "usage" data
  if hasUsage then
    let usage ← pySubscript data "usage"
    accumFlatUsage t usage
  else
    let hasModelUsage ← pyContains "modelUsage" data
    if hasModelUsage then
      let mu ← pySubscript data "modelUsage"
      let entries ← pyItems mu
      entries.foldlM (fun acc p => accumModelUsage acc p.2) t
    else
      pure t

/-- `Worker._parse_token_usage_from_log`, as a function of the per-line parse
outcomes of the captured log: counters are reset, every line is processed
independently, lines that fail `json.loads` (and blank lines) are skipped. -/
def parseTokenUsageFromLog (log : List (Option JVal)) : Except String TokenUsage :=
  log.foldlM
    (fun t line =>
      match line with
      | none => pure t
      | some data => processParsedLine t data)
    TokenUsage.zero

/-! ### Rollup (`dashboard/rollup.py`)

Cost arithmetic is embedded over exact rationals; the Sonnet 4.5 price table
values are decimal literals, represented exactly. `round(x, 4)` is embedded
as round-half-even at four decimal places. -/

/-- `PRICE_INPUT_TOKENS = 3.00`. -/
def PRICE_INPUT_TOKENS : ℚ := 3
/-- `PRICE_OUTPUT_TOKENS = 15.00`. -/
def PRICE_OUTPUT_TOKENS : ℚ := 15
/-- `PRICE_CACHE_READ_TOKENS = 0.30`. -/
def PRICE_CACHE_READ_TOKENS : ℚ := 3 / 10
/-- `PRICE_CACHE_CREATION_TOKENS = 3.75`. -/
def PRICE_CACHE_CREATION_TOKENS : ℚ := 15 / 4

/-- Round-half-even to an integer (Python `round` semantics, over ℚ). -/
def roundHalfEven (q : ℚ) : ℤ :=
  let f := ⌊q⌋
  let r := q - f
  if r < 1 / 2 then f
  else if 1 / 2 < r then f + 1
  else if f % 2 = 0 then f else f + 1

/-- Python `round(q, 4)`. -/
def round4 (q : ℚ) : ℚ := (roundHalfEven (q * 10000) : ℚ) / 10000

/-- `compute_rollup_status(tasks, task_ids)`: the status each member
contributes (`tasks.get(task_id, {}).get("status", "pending")`). -/
def memberStatus (tasks : List (String × TaskRecord)) (task_id : String) : String :=
  ((assocGet tasks task_id).map TaskRecord.status).getD "pending"

/-- `compute_rollup_status`. -/
def computeRollupStatus (tasks : List (String × TaskRecord))
    (task_ids : List String) : String :=
  if task_ids.isEmpty then "pending"
  else
    let statuses := task_ids.map (memberStatus tasks)
    if statuses.contains "failed" then "failed"
    else if statuses.contains "in_progress" then "in_progress"
    else if statuses.all (fun s => s == "completed") then "completed"
    else "pending"

/-- Result record of `compute_rollup_metrics`. -/
structure RollupMetrics where
  duration_seconds : Int
  token_usage : TokenUsage
  cost_usd : ℚ
deriving Repr, DecidableEq

/-- The accumulation loop of `compute_rollup_metrics`: sum durations and the
four token counters, with absent records contributing the zero defaults. -/
def rollupTotals (tasks : List (String × TaskRecord)) (task_ids : List String) :
    Int × TokenUsage :=
  task_ids.foldl
    (fun acc task_id =>
      let task := (assocGet tasks task_id).getD emptyTask
      let tok := task.token_usage
      (acc.1 + task.duration_seconds,
       { input_tokens := acc.2.input_tokens + tok.input_tokens
         output_tokens := acc.2.output_tokens + tok.output_tokens
         cache_read_tokens := acc.2.cache_read_tokens + tok.cache_read_tokens
         cache_creation_tokens :=
           acc.2.cache_creation_tokens + tok.cache_creation_tokens }))
    (0, TokenUsage.zero)

/-- The cost expression of `compute_rollup_metrics` (before rounding). -/
def costOf (tok : TokenUsage) : ℚ :=
  (tok.input_tokens : ℚ) / 1000000 * PRICE_INPUT_TOKENS
    + (tok.output_tokens : ℚ) / 1000000 * PRICE_OUTPUT_TOKENS
    + (tok.cache_read_tokens : ℚ) / 1000000 * PRICE_CACHE_READ_TOKENS
    + (tok.cache_creation_tokens : ℚ) / 1000000 * PRICE_CACHE_CREATION_TOKENS

/-- `compute_rollup_metrics`. -/
def computeRollupMetrics (tasks : List (String × TaskRecord))
    (task_ids : List String) : RollupMetrics :=
  let totals := rollupTotals tasks task_ids
  { duration_seconds := totals.1
    token_usage := totals.2
    cost_usd := round4 (costOf totals.2) }

/-! ### Scheduler loop (`orchestrator.py`)

The loop is embedded as a pure transition function on the orchestrator state
(state document + active-worker map, the latter reduced to its key list in
insertion order).  Everything the loop learns from the outside world — per-worker
exit codes, token counts, wall-clock timestamps, pids — is supplied per
iteration by an oracle record. -/

/-- Orchestrator state: the shared state document and the keys of
`self.active_workers` in insertion order. -/
structure OrchState where
  doc : StateDoc
  active : List String

/-- Per-iteration oracle: what the polled OS processes report.
`exitOf tid = none` while worker `tid` is still alive, `some code` once it
has exited with `code`; `tokensOf tid` is `worker.get_token_usage()`;
`now`/`durOf` stand for the `datetime.now` timestamps and the measured
duration; `pidOf` is the spawned pid. -/
structure IterOracle where
  exitOf : String → Option Int
  tokensOf : String → TokenUsage
  now : String
  durOf : String → Int
  pidOf : String → Int

/-- The per-worker body of `Orchestrator.monitor_workers`: push current token
usage, then if the process has exited finalize the task — exit code 0 via
`complete_task` (`_handle_task_completion`), non-zero via `fail_task` with
`f"Worker exited with code {exit_code}"` (`_handle_task_failure`). -/
def monitorOne (o : IterOracle) (doc : StateDoc) (tid : String) : StateDoc :=
  let tok := o.tokensOf tid
  let doc := updateTaskTokens doc tid (some tok.input_tokens)
    (some tok.output_tokens) (some tok.cache_read_tokens)
    (some tok.cache_creation_tokens)
  match o.exitOf tid with
  | none => doc
  | some code =>
      if code = 0 then completeTask doc tid o.now (o.durOf tid)
      else failTask doc tid ("Worker exited with code " ++ toString code) o.now

/-- `Orchestrator.monitor_workers`: run the body over every active worker and
drop the exited ones from the active map. -/
def monitorWorkers (o : IterOracle) (σ : OrchState) : OrchState :=
  { doc := σ.active.foldl (monitorOne o) σ.doc
    active := σ.active.filter (fun tid => (o.exitOf tid).isNone) }

/-- `Orchestrator.get_ready_tasks`: read the per-task statuses from the state
document, restrict the map to completed / in-progress / failed entries, ask
the DAG for ready tasks, then keep only tasks still pending and not already
tracked in `active_workers`. -/
def orchGetReadyTasks (tasks : Tasks) (σ : OrchState) : List String :=
  let task_status_map : List (String × String) :=
    σ.doc.tasks.map (fun p => (p.1, p.2.status))
  let completed_or_started := task_status_map.filter
    (fun p => p.2 == "completed" || p.2 == "in_progress" || p.2 == "failed")
  let ready := getReadyTasks tasks completed_or_started
  ready.filter (fun tid =>
    ((statusOf task_status_map tid).getD "pending" == "pending")
      && !σ.active.contains tid)

/-- `Orchestrator.start_worker`: mark the task in-progress with worker id and
start time, spawn, record the pid, and track the worker in `active_workers`. -/
def startWorker (o : IterOracle) (σ : OrchState) (tid : String) : OrchState :=
  let doc := updateTask σ.doc tid (some TaskStatus.in_progress) (some tid)
    none (some o.now) none
  let doc := updateTask doc tid none none (some (o.pidOf tid)) none none
  { doc := doc, active := σ.active ++ [tid] }

/-- The admit step of `Orchestrator.run`: when slots are available, start a
worker for each ready task up to `available_slots`
(`ready_tasks[:available_slots]`). -/
def admitStep (tasks : Tasks) (max_workers : Nat) (o : IterOracle)
    (σ : OrchState) : OrchState :=
  let available_slots : Int := (max_workers : Int) - (σ.active.length : Int)
  if available_slots > 0 then
    let ready_tasks := orchGetReadyTasks tasks σ
    (ready_tasks.take available_slots.toNat).foldl (startWorker o) σ
  else σ

/-- One iteration of the `Orchestrator.run` loop: monitor, then admit
(the terminate check and the sleep do not change the state). -/
def runStep (tasks : Tasks) (max_workers : Nat) (σ : OrchState)
    (o : IterOracle) : OrchState :=
  admitStep tasks max_workers o (monitorWorkers o σ)

/-- The state reached after running the loop for one oracle per iteration,
starting from a document `doc₀` and the empty `active_workers` map the
constructor leaves behind. -/
def runLoop (tasks : Tasks) (max_workers : Nat) (doc₀ : StateDoc)
    (os : List IterOracle) : OrchState :=
  os.foldl (runStep tasks max_workers) { doc := doc₀, active := [] }

/-! ### Concrete fixtures used by counterexamples and witnesses -/

/-- A task info with no dependencies. -/
def infoNoDeps : TaskInfo :=
  { name := "A", description := "demo", depends_on := [], group := "G", branch := "B" }

/-- A task info with the given dependency list. -/
def infoDeps (ds : List String) : TaskInfo :=
  { name := "N", description := "demo", depends_on := ds, group := "G", branch := "B" }

/-- A one-task graph with no dependencies. -/
def exTasksA : Tasks := [("A", infoNoDeps)]

/-- The two-task cyclic graph A → B → A from the spec scenario. -/
def exTasksCyc : Tasks := [("A", infoDeps ["B"]), ("B", infoDeps ["A"])]

/-- A graph whose single task T depends on an id D that is not registered. -/
def exTasksUnknownDep : Tasks := [("T", infoDeps ["D"])]

/-- A task record with status completed. -/
def completedRec : TaskRecord := { emptyTask with status := "completed" }

/-- A state document holding one completed task T. -/
def docCompletedT : StateDoc :=
  { project := { name := "P", cascade_file := "C.md", started_at := none
                 completed_at := none }
    tasks := [("T", completedRec)] }

/-- A structured-output line carrying a flat usage object with
`input_tokens = 100` (the spec scenario record). -/
def usageRec100 : JVal := .obj [("usage", .obj [("input_tokens", .num 100)])]

/-- A task record carrying one million tokens in each of the four counters. -/
def rec1M : TaskRecord :=
  { emptyTask with token_usage := ⟨1000000, 1000000, 1000000, 1000000⟩ }

/-- The readiness condition as the specification words it (for comparison
with `getReadyTasks`, which is translated from the source): a registered task
whose own status is pending or absent from the status map, and whose every
dependency has status completed in the map. -/
def specReadyPred (tasks : Tasks) (m : List (String × String)) (t : String) :
    Prop :=
  ∃ info, lookupTask tasks t = some info
    ∧ (statusOf m t = none ∨ statusOf m t = some "pending")
    ∧ ∀ d ∈ info.depends_on, statusOf m d = some "completed"

/-! ### Association-list helper lemmas -/

lemma find?_cons_pos {α : Type} (f : α → Bool) (a : α) (l : List α)
    (h : f a = true) : (a :: l).find? f = some a :=
  List.find?_cons_of_pos l h

lemma find?_cons_neg {α : Type} (f : α → Bool) (a : α) (l : List α)
    (h : f a = false) : (a :: l).find? f = l.find? f :=
  List.find?_cons_of_neg l (by simp [h])

lemma find?_map_replace {α : Type} (m : List (String × α)) (k : String)
    (v : α) :
    (m.map (fun p => if p.1 == k then (k, v) else p)).find? (fun p => p.1 == k)
      = if m.any (fun p => p.1 == k) then some (k, v) else none := by
  induction m with
  | nil => simp
  | cons p l ih =>
      by_cases hp : p.1 = k
      · have hb : (p.1 == k) = true := beq_iff_eq.mpr hp
        rw [List.map_cons, if_pos hb,
          find?_cons_pos (fun p => p.1 == k) (k, v) _ (by simp),
          List.any_cons, hb]
        simp
      · have hb : (p.1 == k) = false := beq_eq_false_iff_ne.mpr hp
        rw [List.map_cons, if_neg (by simp [hb]),
          find?_cons_neg (fun p => p.1 == k) p _ hb, List.any_cons, hb,
          Bool.false_or]
        exact ih

lemma find?_map_replace_ne {α : Type} (m : List (String × α)) (k k' : String)
    (v : α) (hne : k' ≠ k) :
    (m.map (fun p => if p.1 == k then (k, v) else p)).find? (fun p => p.1 == k')
      = m.find? (fun p => p.1 == k') := by
  induction m with
  | nil => simp
  | cons p l ih =>
      have hkk : (k == k') = false := beq_eq_false_iff_ne.mpr (Ne.symm hne)
      by_cases hp : p.1 = k
      · have hb : (p.1 == k) = true := beq_iff_eq.mpr hp
        have hb' : (p.1 == k') = false := by rw [hp]; exact hkk
        rw [List.map_cons, if_pos hb,
          find?_cons_neg (fun p => p.1 == k') (k, v) _ hkk,
          find?_cons_neg (fun p => p.1 == k') p _ hb']
        exact ih
      · have hb : (p.1 == k) = false := beq_eq_false_iff_ne.mpr hp
        rw [List.map_cons, if_neg (by simp [hb])]
        by_cases hp' : p.1 = k'
        · have hb' : (p.1 == k') = true := beq_iff_eq.mpr hp'
          rw [find?_cons_pos (fun p => p.1 == k') p _ hb',
            find?_cons_pos (fun p => p.1 == k') p _ hb']
        · have hb' : (p.1 == k') = false := beq_eq_false_iff_ne.mpr hp'
          rw [find?_cons_neg (fun p => p.1 == k') p _ hb',
            find?_cons_neg (fun p => p.1 == k') p _ hb']
          exact ih

lemma find?_append_single {α : Type} (m : List (String × α)) (k k' : String)
    (v : α) :
    (m ++ [(k, v)]).find? (fun p => p.1 == k')
      = match m.find? (fun p => p.1 == k') with
        | some x => some x
        | none => if k == k' then some (k, v) else none := by
  induction m with
  | nil =>
      by_cases h : k = k'
      · have hb : (k == k') = true := beq_iff_eq.mpr h
        simp only [List.nil_append, List.find?_nil]
        rw [find?_cons_pos (fun p => p.1 == k') (k, v) _ hb, if_pos hb]
      · have hb : (k == k') = false := beq_eq_false_iff_ne.mpr h
        simp only [List.nil_append, List.find?_nil]
        rw [find?_cons_neg (fun p => p.1 == k') (k, v) _ hb, List.find?_nil,
          if_neg (by simp [hb])]
  | cons p l ih =>
      by_cases hp' : p.1 = k'
      · have hb' : (p.1 == k') = true := beq_iff_eq.mpr hp'
        rw [List.cons_append, find?_cons_pos (fun p => p.1 == k') p _ hb',
          find?_cons_pos (fun p => p.1 == k') p _ hb']
      · have hb' : (p.1 == k') = false := beq_eq_false_iff_ne.mpr hp'
        rw [List.cons_append, find?_cons_neg (fun p => p.1 == k') p _ hb',
          find?_cons_neg (fun p => p.1 == k') p _ hb']
        exact ih

lemma find?_eq_none_of_any_false {α : Type} (m : List (String × α))
    (k : String) (h : m.any (fun p => p.1 == k) = false) :
    m.find? (fun p => p.1 == k) = none := by
  induction m with
  | nil => rfl
  | cons p l ih =>
      simp only [List.any_cons, Bool.or_eq_false_iff] at h
      rw [find?_cons_neg (fun p => p.1 == k) p _ h.1]
      exact ih h.2

lemma assocGet_assocSet_self {α : Type} (m : List (String × α)) (k : String)
    (v : α) : assocGet (assocSet m k v) k = some v := by
  unfold assocSet assocGet
  by_cases h : m.any (fun p => p.1 == k)
  · rw [if_pos h, find?_map_replace, if_pos h]
    rfl
  · rw [if_neg h, find?_append_single,
      find?_eq_none_of_any_false m k (Bool.eq_false_iff.mpr h)]
    simp

lemma assocGet_assocSet_ne {α : Type} (m : List (String × α)) (k k' : String)
    (v : α) (hne : k' ≠ k) : assocGet (assocSet m k v) k' = assocGet m k' := by
  unfold assocSet assocGet
  by_cases h : m.any (fun p => p.1 == k)
  · rw [if_pos h, find?_map_replace_ne m k k' v hne]
  · rw [if_neg h, find?_append_single]
    cases hf : m.find? (fun p => p.1 == k') with
    | some x => rfl
    | none =>
        have hb : (k == k') = false := beq_eq_false_iff_ne.mpr (Ne.symm hne)
        simp [hb]

/-- The status stored after each mutation, at the mutated key. -/
lemma docStatus_updateTask_some (doc : StateDoc) (tid : String) (st : TaskStatus)
    (w : Option String) (p : Option Int) (s c : Option String) :
    docStatus (updateTask doc tid (some st) w p s c) tid = st.value := by
  unfold updateTask docStatus
  cases w <;> cases p <;> cases s <;> cases c <;>
    simp [assocGet_assocSet_self]

lemma docStatus_updateTask_none (doc : StateDoc) (tid : String)
    (w : Option String) (p : Option Int) (s c : Option String) :
    docStatus (updateTask doc tid none w p s c) tid = docStatus doc tid := by
  unfold updateTask docStatus getOrEmptyTask
  cases hg : assocGet doc.tasks tid <;>
    cases w <;> cases p <;> cases s <;> cases c <;>
    simp [assocGet_assocSet_self, hg, emptyTask, TaskStatus.value]

lemma docStatus_updateTaskTokens (doc : StateDoc) (tid : String)
    (i o cr cc : Option Int) :
    docStatus (updateTaskTokens doc tid i o cr cc) tid = docStatus doc tid := by
  unfold updateTaskTokens docStatus getOrEmptyTask
  cases hg : assocGet doc.tasks tid <;>
    cases i <;> cases o <;> cases cr <;> cases cc <;>
    simp [assocGet_assocSet_self, hg, emptyTask, TaskStatus.value]

lemma docStatus_completeTask (doc : StateDoc) (tid : String) (ca : String)
    (d : Int) (cs : Option String) (fc : Option (List String)) :
    docStatus (completeTask doc tid ca d cs fc) tid = "completed" := by
  unfold completeTask docStatus
  cases cs <;> cases fc <;>
    simp [assocGet_assocSet_self, TaskStatus.value]

lemma docStatus_failTask (doc : StateDoc) (tid : String) (e n : String) :
    docStatus (failTask doc tid e n) tid = "failed" := by
  unfold failTask docStatus
  simp [assocGet_assocSet_self, TaskStatus.value]

lemma docStatus_updateTask_other (doc : StateDoc) (tid tid' : String)
    (st : Option TaskStatus) (w : Option String) (p : Option Int)
    (s c : Option String) (hne : tid' ≠ tid) :
    docStatus (updateTask doc tid st w p s c) tid' = docStatus doc tid' := by
  unfold updateTask docStatus
  simp [assocGet_assocSet_ne _ _ _ _ hne]

/-- Folding the pending-marking `update_task` calls of `Orchestrator.__init__`
over a task-id list leaves every listed id pending and every other id
untouched. -/
lemma docStatus_foldl_pending (ids : List String) (d : StateDoc) (tid : String) :
    docStatus
        (ids.foldl
          (fun d t => updateTask d t (some TaskStatus.pending) none none none none) d)
        tid
      = if tid ∈ ids then "pending" else docStatus d tid := by
  induction ids generalizing d with
  | nil => simp
  | cons a l ih =>
      simp only [List.foldl_cons, ih]
      by_cases hl : tid ∈ l
      · simp [hl]
      · by_cases ha : tid = a
        · subst ha
          simp [hl, docStatus_updateTask_some, TaskStatus.value]
        · simp [hl, ha, docStatus_updateTask_other _ _ _ _ _ _ _ _ ha]

/-- The pending-marking fold never touches the project object. -/
lemma project_foldl_pending (ids : List String) (d : StateDoc) :
    (ids.foldl
        (fun d t => updateTask d t (some TaskStatus.pending) none none none none) d).project
      = d.project := by
  induction ids generalizing d with
  | nil => rfl
  | cons a l ih => simp only [List.foldl_cons, ih]; rfl

lemma find?_some_pred {α : Type} (f : α → Bool) (l : List α) (a : α)
    (h : l.find? f = some a) : f a = true :=
  List.find?_some h

lemma mem_of_find?_some {α : Type} (f : α → Bool) (l : List α) (a : α)
    (h : l.find? f = some a) : a ∈ l :=
  List.mem_of_find?_eq_some h

/-- With unique keys, a successful dictionary lookup is exactly membership. -/
lemma lookupTask_eq_some_iff (tasks : Tasks) (hnd : (taskIds tasks).Nodup)
    (t : String) (info : TaskInfo) :
    lookupTask tasks t = some info ↔ (t, info) ∈ tasks := by
  constructor
  · intro h
    unfold lookupTask at h
    cases hf : tasks.find? (fun p => p.1 == t) with
    | none => rw [hf] at h; exact absurd h (by simp)
    | some p =>
        rw [hf] at h
        simp only [Option.map_some', Option.some.injEq] at h
        have hp : (p.1 == t) = true :=
          find?_some_pred (fun p => p.1 == t) tasks p hf
        have hmem : p ∈ tasks := mem_of_find?_some (fun p => p.1 == t) tasks p hf
        have hpt : p = (t, info) := by
          obtain ⟨a, b⟩ := p
          simp only [beq_iff_eq] at hp
          simp only at h
          rw [hp, h]
        rw [← hpt]
        exact hmem
  · intro hmem
    induction tasks with
    | nil => cases hmem
    | cons q l ih =>
        rcases List.mem_cons.mp hmem with heq | hmem2
        · unfold lookupTask
          rw [← heq, find?_cons_pos (fun p => p.1 == t) (t, info) l (by simp)]
          rfl
        · have hids : taskIds (q :: l) = q.1 :: taskIds l := rfl
          rw [hids, List.nodup_cons] at hnd
          have htl : t ∈ taskIds l := List.mem_map.mpr ⟨(t, info), hmem2, rfl⟩
          have hqt : (q.1 == t) = false :=
            beq_eq_false_iff_ne.mpr (fun he => hnd.1 (he ▸ htl))
          unfold lookupTask
          rw [find?_cons_neg (fun p => p.1 == t) q l hqt]
          exact ih hnd.2 hmem2

/-- Membership in `get_ready_tasks`: exactly the registered tasks absent from
the status map whose every dependency is present with status completed. -/
lemma mem_getReadyTasks_iff (tasks : Tasks) (m : List (String × String))
    (hnd : (taskIds tasks).Nodup) (t : String) :
    t ∈ getReadyTasks tasks m ↔
      ∃ info, lookupTask tasks t = some info ∧ statusOf m t = none
        ∧ ∀ d ∈ info.depends_on, statusOf m d = some "completed" := by
  unfold getReadyTasks
  rw [List.mem_filterMap]
  constructor
  · rintro ⟨⟨a, info⟩, hp, hf⟩
    by_cases h1 : (statusOf m a).isSome
    · rw [if_pos h1] at hf; cases hf
    · rw [if_neg h1] at hf
      by_cases h2 : info.depends_on.all (fun d => statusOf m d == some "completed")
      · rw [if_pos h2] at hf
        have hat : a = t := Option.some.inj hf
        subst hat
        refine ⟨info, (lookupTask_eq_some_iff tasks hnd a info).mpr hp, ?_, ?_⟩
        · exact Option.not_isSome_iff_eq_none.mp h1
        · intro d hd
          exact beq_iff_eq.mp (List.all_eq_true.mp h2 d hd)
      · rw [if_neg h2] at hf; cases hf
  · rintro ⟨info, hl, hs, hdeps⟩
    refine ⟨(t, info), (lookupTask_eq_some_iff tasks hnd t info).mp hl, ?_⟩
    rw [if_neg (by simp [hs]),
      if_pos (List.all_eq_true.mpr (fun d hd => beq_iff_eq.mpr (hdeps d hd)))]

/-! ### Claim theorems -/

/-- C4 counterexample: the store does not make statuses monotonic. Starting
from a document whose task T is completed, `fail_task` moves it to failed and
`update_task` with an explicit pending status moves it back to pending — both
transitions the claim rules out. -/
theorem state_status_regression_counterexample :
    docStatus docCompletedT "T" = "completed"
    ∧ docStatus (failTask docCompletedT "T" "boom" "ts") "T" = "failed"
    ∧ docStatus
        (updateTask docCompletedT "T" (some TaskStatus.pending) none none none none)
        "T" = "pending" := by
  refine ⟨by decide, by decide, by decide⟩

/-- C4 (amended): the exact status effect of each state-store mutation — no
operation guards terminal statuses. `update_task` leaves the status unchanged
when none is supplied and writes exactly the supplied value otherwise
(including pending over a terminal status); `update_task_tokens` never
changes the status; `complete_task` and `fail_task` set completed / failed
unconditionally, whatever the previous status was. -/
theorem state_status_effects (doc : StateDoc) (tid : String) :
    (∀ w p s c, docStatus (updateTask doc tid none w p s c) tid = docStatus doc tid)
    ∧ (∀ st w p s c,
        docStatus (updateTask doc tid (some st) w p s c) tid = st.value)
    ∧ (∀ i o cr cc,
        docStatus (updateTaskTokens doc tid i o cr cc) tid = docStatus doc tid)
    ∧ (∀ ca d cs fc,
        docStatus (completeTask doc tid ca d cs fc) tid = "completed")
    ∧ (∀ e n, docStatus (failTask doc tid e n) tid = "failed") :=
  ⟨fun w p s c => docStatus_updateTask_none doc tid w p s c,
   fun st w p s c => docStatus_updateTask_some doc tid st w p s c,
   fun i o cr cc => docStatus_updateTaskTokens doc tid i o cr cc,
   fun ca d cs fc => docStatus_completeTask doc tid ca d cs fc,
   fun e n => docStatus_failTask doc tid e n⟩

/-- C5 counterexample: `StateManager.initialize` on an existing document does
not leave it unchanged — it unconditionally rewrites the file with a fresh
empty state, discarding the previous task records. -/
theorem initialize_overwrites_counterexample :
    smInitialize (some docCompletedT) "P" "C.md" = some (emptyState "P" "C.md")
    ∧ smInitialize (some docCompletedT) "P" "C.md" ≠ some docCompletedT := by
  refine ⟨rfl, by decide⟩

/-- C5 (amended): the never-clobber guard lives in `Orchestrator.__init__`,
which calls `initialize` only when the state file does not exist; through the
orchestrator an existing document is left unchanged, and an absent file is
created with the project header and every parsed task pending. -/
theorem orch_init_preserves_existing_state (doc : StateDoc) (n f : String)
    (ids : List String) :
    orchInitStateFile (some doc) n f ids = some doc
    ∧ ∃ d, orchInitStateFile none n f ids = some d
        ∧ d.project = { name := n, cascade_file := f, started_at := none
                        completed_at := none }
        ∧ ∀ tid ∈ ids, docStatus d tid = "pending" := by
  refine ⟨rfl, _, rfl, ?_, ?_⟩
  · exact project_foldl_pending ids (emptyState n f)
  · intro tid htid
    rw [docStatus_foldl_pending, if_pos htid]

/-- C7: `Worker.wait` sets the worker status deterministically from the exit
code delivered by `process.wait` — 0 yields COMPLETED, anything non-zero
yields FAILED — and afterwards the recorded exit code is the delivered one
and `is_alive()` is false. -/
theorem worker_wait_status_from_exit_code (w : WorkerState) (code : Int) :
    ((w.waitPost code).status
       = if code = 0 then WorkerStatus.completed else WorkerStatus.failed)
    ∧ (code = 0 → (w.waitPost code).status = WorkerStatus.completed)
    ∧ (code ≠ 0 →
        (w.waitPost code).status = WorkerStatus.failed
        ∧ (w.waitPost code).getExitCode = some code
        ∧ (w.waitPost code).isAlive = false) := by
  refine ⟨rfl, ?_, ?_⟩
  · intro h
    simp [WorkerState.waitPost, h]
  · intro h
    exact ⟨by simp [WorkerState.waitPost, h], rfl, rfl⟩

/-- C7 witness: a worker whose command exits with code 7 ends FAILED, with
exit code 7 recorded and `is_alive()` false. -/
theorem worker_wait_status_from_exit_code_witness :
    (7 : Int) ≠ 0
    ∧ ((⟨WorkerStatus.running, some ⟨none⟩, some 33⟩ : WorkerState).waitPost 7).status
        = WorkerStatus.failed
    ∧ ((⟨WorkerStatus.running, some ⟨none⟩, some 33⟩ : WorkerState).waitPost 7).isAlive
        = false :=
  ⟨by decide,
   ((worker_wait_status_from_exit_code ⟨WorkerStatus.running, some ⟨none⟩, some 33⟩ 7).2.2
      (by decide)).1,
   ((worker_wait_status_from_exit_code ⟨WorkerStatus.running, some ⟨none⟩, some 33⟩ 7).2.2
      (by decide)).2.2⟩

/-- C8: token-usage extraction evaluated on concrete logs. A log whose single
line is the bare JSON number 5 parses under `json.loads` but then raises an
uncaught TypeError inside the extraction (the membership test `"usage" in 5`),
contradicting the never-raises claim; the two positive spec scenarios hold: a
log with two flat usage records of 100 input tokens accumulates 200, and an
empty log yields all-zero counters. -/
theorem token_usage_parse_behaviour :
    parseTokenUsageFromLog [some (JVal.num 5)]
        = .error "TypeError: argument of type int is not iterable"
    ∧ parseTokenUsageFromLog [some usageRec100, some usageRec100]
        = .ok { input_tokens := 200, output_tokens := 0, cache_read_tokens := 0
                cache_creation_tokens := 0 }
    ∧ parseTokenUsageFromLog [] = .ok TokenUsage.zero :=
  ⟨rfl, rfl, rfl⟩

/-- C6: rollup status precedence — any failed member makes the rollup failed;
otherwise any in-progress member makes it in-progress; otherwise all
completed makes it completed; otherwise pending; and an empty member set
yields pending with all-zero duration, token counters and cost, without
error. -/
theorem rollup_status_precedence (tasks : List (String × TaskRecord))
    (ids : List String) :
    ((∃ t ∈ ids, memberStatus tasks t = "failed") →
       computeRollupStatus tasks ids = "failed")
    ∧ ((∀ t ∈ ids, memberStatus tasks t ≠ "failed") →
       (∃ t ∈ ids, memberStatus tasks t = "in_progress") →
       computeRollupStatus tasks ids = "in_progress")
    ∧ (ids ≠ [] →
       (∀ t ∈ ids, memberStatus tasks t = "completed") →
       computeRollupStatus tasks ids = "completed")
    ∧ (ids ≠ [] →
       (∀ t ∈ ids, memberStatus tasks t ≠ "failed") →
       (∀ t ∈ ids, memberStatus tasks t ≠ "in_progress") →
       ¬ (∀ t ∈ ids, memberStatus tasks t = "completed") →
       computeRollupStatus tasks ids = "pending")
    ∧ computeRollupStatus tasks [] = "pending"
    ∧ computeRollupMetrics tasks [] =
        { duration_seconds := 0, token_usage := TokenUsage.zero, cost_usd := 0 } := by
  have hisEmpty : ∀ t ∈ ids, ids.isEmpty = false := by
    intro t ht
    cases ids with
    | nil => cases ht
    | cons a l => rfl
  refine ⟨?_, ?_, ?_, ?_, ?_, ?_⟩
  · rintro ⟨t, ht, hs⟩
    simp only [computeRollupStatus, hisEmpty t ht, Bool.false_eq_true, if_false]
    simp only [List.elem_eq_mem, List.mem_map, decide_eq_true_eq]
    rw [if_pos ⟨t, ht, hs⟩]
  · rintro h1 ⟨t, ht, hs⟩
    simp only [computeRollupStatus, hisEmpty t ht, Bool.false_eq_true, if_false]
    simp only [List.elem_eq_mem, List.mem_map, decide_eq_true_eq]
    have hnf : ¬ ∃ u ∈ ids, memberStatus tasks u = "failed" := by
      rintro ⟨u, hu, hus⟩
      exact h1 u hu hus
    rw [if_neg hnf, if_pos ⟨t, ht, hs⟩]
  · intro hne hcomp
    obtain ⟨t0, ht0⟩ : ∃ t, t ∈ ids := by
      cases ids with
      | nil => exact absurd rfl hne
      | cons a l => exact ⟨a, List.mem_cons_self a l⟩
    simp only [computeRollupStatus, hisEmpty t0 ht0, Bool.false_eq_true, if_false]
    simp only [List.elem_eq_mem, List.mem_map, decide_eq_true_eq]
    have hnf : ¬ ∃ u ∈ ids, memberStatus tasks u = "failed" := by
      rintro ⟨u, hu, hus⟩
      rw [hcomp u hu] at hus
      exact absurd hus (by decide)
    have hni : ¬ ∃ u ∈ ids, memberStatus tasks u = "in_progress" := by
      rintro ⟨u, hu, hus⟩
      rw [hcomp u hu] at hus
      exact absurd hus (by decide)
    have ha : ((ids.map (memberStatus tasks)).all fun s => s == "completed") = true := by
      rw [List.all_eq_true]
      intro x hx
      obtain ⟨u, hu, rfl⟩ := List.mem_map.mp hx
      exact beq_iff_eq.mpr (hcomp u hu)
    rw [if_neg hnf, if_neg hni, if_pos ha]
  · intro hne h1 h2 h3
    obtain ⟨t0, ht0⟩ : ∃ t, t ∈ ids := by
      cases ids with
      | nil => exact absurd rfl hne
      | cons a l => exact ⟨a, List.mem_cons_self a l⟩
    simp only [computeRollupStatus, hisEmpty t0 ht0, Bool.false_eq_true, if_false]
    simp only [List.elem_eq_mem, List.mem_map, decide_eq_true_eq]
    have hnf : ¬ ∃ u ∈ ids, memberStatus tasks u = "failed" := by
      rintro ⟨u, hu, hus⟩
      exact h1 u hu hus
    have hni : ¬ ∃ u ∈ ids, memberStatus tasks u = "in_progress" := by
      rintro ⟨u, hu, hus⟩
      exact h2 u hu hus
    have hna : ¬ (((ids.map (memberStatus tasks)).all fun s => s == "completed") = true) := by
      intro hx
      rw [List.all_eq_true] at hx
      refine h3 (fun u hu => ?_)
      exact beq_iff_eq.mp (hx (memberStatus tasks u) (List.mem_map.mpr ⟨u, hu, rfl⟩))
    rw [if_neg hnf, if_neg hni, if_neg hna]
  · rfl
  · have hz : costOf TokenUsage.zero = 0 := by
      norm_num [costOf, TokenUsage.zero]
    simp only [computeRollupMetrics, rollupTotals, List.foldl_nil]
    rw [RollupMetrics.mk.injEq]
    refine ⟨rfl, rfl, ?_⟩
    rw [hz]
    norm_num [round4, roundHalfEven]

/-- C6 witness: a singleton member set whose task is completed rolls up to
completed. -/
theorem rollup_status_precedence_witness :
    (["T"] : List String) ≠ []
    ∧ (∀ t ∈ (["T"] : List String), memberStatus [("T", completedRec)] t = "completed")
    ∧ computeRollupStatus [("T", completedRec)] ["T"] = "completed" :=
  ⟨by decide, by decide,
   (rollup_status_precedence [("T", completedRec)] ["T"]).2.2.1 (by decide) (by decide)⟩

/-- C9: the rollup cost is the sum over the four counters of
count / 1,000,000 times the fixed per-million price, rounded to four decimal
places; one million tokens in each counter prices at exactly the sum of the
four per-million prices. -/
theorem rollup_cost_formula (tasks : List (String × TaskRecord))
    (ids : List String) :
    ((computeRollupMetrics tasks ids).cost_usd
       = round4
           (((computeRollupMetrics tasks ids).token_usage.input_tokens : ℚ)
               / 1000000 * PRICE_INPUT_TOKENS
             + ((computeRollupMetrics tasks ids).token_usage.output_tokens : ℚ)
               / 1000000 * PRICE_OUTPUT_TOKENS
             + ((computeRollupMetrics tasks ids).token_usage.cache_read_tokens : ℚ)
               / 1000000 * PRICE_CACHE_READ_TOKENS
             + ((computeRollupMetrics tasks ids).token_usage.cache_creation_tokens : ℚ)
               / 1000000 * PRICE_CACHE_CREATION_TOKENS))
    ∧ (computeRollupMetrics [("M", rec1M)] ["M"]).token_usage
        = ⟨1000000, 1000000, 1000000, 1000000⟩
    ∧ (computeRollupMetrics [("M", rec1M)] ["M"]).cost_usd
        = PRICE_INPUT_TOKENS + PRICE_OUTPUT_TOKENS + PRICE_CACHE_READ_TOKENS
            + PRICE_CACHE_CREATION_TOKENS := by
  refine ⟨rfl, by decide, ?_⟩
  have htok : (computeRollupMetrics [("M", rec1M)] ["M"]).token_usage
      = ⟨1000000, 1000000, 1000000, 1000000⟩ := by decide
  have hcost : (computeRollupMetrics [("M", rec1M)] ["M"]).cost_usd
      = round4 (costOf ⟨1000000, 1000000, 1000000, 1000000⟩) := by
    simp only [computeRollupMetrics] at htok ⊢
    rw [htok]
  rw [hcost]
  norm_num [costOf, round4, roundHalfEven, PRICE_INPUT_TOKENS,
    PRICE_OUTPUT_TOKENS, PRICE_CACHE_READ_TOKENS, PRICE_CACHE_CREATION_TOKENS]

/-- C1 counterexample: a task whose status map entry is pending satisfies the
specification wording of readiness (own status pending, all dependencies
completed), yet `get_ready_tasks` does not return it — the code skips every
task present in the map, whatever its status. -/
theorem ready_pending_status_counterexample :
    specReadyPred exTasksA [("A", "pending")] "A"
    ∧ "A" ∉ getReadyTasks exTasksA [("A", "pending")] := by
  constructor
  · refine ⟨infoNoDeps, rfl, Or.inr rfl, ?_⟩
    intro d hd
    exact absurd hd (by simp [infoNoDeps])
  · decide

/-- C1 (amended): `get_ready_tasks(status_map)` returns exactly the registered
tasks absent from the status map whose every dependency is mapped to
completed; a task with a dependency mapped to failed is never returned, and
on the empty status map the result is exactly the tasks with an empty
dependency list. -/
theorem getReadyTasks_characterization (tasks : Tasks)
    (m : List (String × String)) (hnd : (taskIds tasks).Nodup) :
    (∀ t, t ∈ getReadyTasks tasks m ↔
       ∃ info, lookupTask tasks t = some info ∧ statusOf m t = none
         ∧ ∀ d ∈ info.depends_on, statusOf m d = some "completed")
    ∧ (∀ t info d, lookupTask tasks t = some info → d ∈ info.depends_on →
        statusOf m d = some "failed" → t ∉ getReadyTasks tasks m)
    ∧ (∀ t, t ∈ getReadyTasks tasks [] ↔
        ∃ info, lookupTask tasks t = some info ∧ info.depends_on = []) := by
  refine ⟨fun t => mem_getReadyTasks_iff tasks m hnd t, ?_, ?_⟩
  · intro t info d hl hd hf hmem
    obtain ⟨info2, hl2, _, hdeps⟩ := (mem_getReadyTasks_iff tasks m hnd t).mp hmem
    rw [hl] at hl2
    have : info = info2 := Option.some.inj hl2
    subst this
    have h2 := hdeps d hd
    rw [hf] at h2
    exact absurd h2 (by decide)
  · intro t
    rw [mem_getReadyTasks_iff tasks [] hnd t]
    constructor
    · rintro ⟨info, hl, _, hdeps⟩
      refine ⟨info, hl, ?_⟩
      cases hds : info.depends_on with
      | nil => rfl
      | cons d ds =>
          have := hdeps d (by rw [hds]; exact List.mem_cons_self d ds)
          exact absurd this (by simp [statusOf])
    · rintro ⟨info, hl, hdeps⟩
      refine ⟨info, hl, rfl, ?_⟩
      rw [hdeps]
      intro d hd
      cases hd

/-- C1 witness: over the empty status map the one-task no-dependency graph
has exactly its task ready. -/
theorem getReadyTasks_characterization_witness :
    (taskIds exTasksA).Nodup ∧ "A" ∈ getReadyTasks exTasksA [] :=
  ⟨by decide,
   ((getReadyTasks_characterization exTasksA [] (by decide)).2.2 "A").mpr
     ⟨infoNoDeps, rfl, rfl⟩⟩

/-- C10: a dependency entry that the status map does not map to completed
permanently keeps its task out of `get_ready_tasks` — in particular an id
absent from the graph and the map — while cycle validation skips edges to
unregistered ids: the graph whose task T depends on the unregistered id D
builds successfully. -/
theorem unknown_dependency_blocks_ready (tasks : Tasks)
    (m : List (String × String)) (t D : String) (info : TaskInfo)
    (hnd : (taskIds tasks).Nodup) (hl : lookupTask tasks t = some info)
    (hD : D ∈ info.depends_on) (hm : statusOf m D ≠ some "completed") :
    t ∉ getReadyTasks tasks m
    ∧ DAG.build exTasksUnknownDep = .ok ⟨exTasksUnknownDep⟩
    ∧ hasTask exTasksUnknownDep "D" = false
    ∧ lookupTask exTasksUnknownDep "T" = some (infoDeps ["D"]) := by
  refine ⟨?_, rfl, rfl, rfl⟩
  intro hmem
  obtain ⟨info2, hl2, _, hdeps⟩ := (mem_getReadyTasks_iff tasks m hnd t).mp hmem
  rw [hl] at hl2
  have : info = info2 := Option.some.inj hl2
  subst this
  exact hm (hdeps D hD)

/-- C10 witness: concrete instance — T depending on the unregistered id D is
not ready over the empty status map. -/
theorem unknown_dependency_blocks_ready_witness :
    (taskIds exTasksUnknownDep).Nodup
    ∧ "D" ∈ (infoDeps ["D"]).depends_on
    ∧ statusOf [] "D" ≠ some "completed"
    ∧ "T" ∉ getReadyTasks exTasksUnknownDep [] :=
  ⟨by decide, by decide, by decide,
   (unknown_dependency_blocks_ready exTasksUnknownDep [] "T" "D" (infoDeps ["D"])
      (by decide) rfl (by decide) (by decide)).1⟩

/-- `get_ready_tasks` returns a sublist of the task-dictionary key list. -/
lemma getReadyTasks_sublist (tasks : Tasks) (m : List (String × String)) :
    (getReadyTasks tasks m).Sublist (taskIds tasks) := by
  induction tasks with
  | nil => exact List.Sublist.refl []
  | cons p l ih =>
      unfold getReadyTasks taskIds at ih ⊢
      rw [List.filterMap_cons, List.map_cons]
      by_cases h1 : (statusOf m p.1).isSome
      · rw [if_pos h1]
        exact List.Sublist.cons p.1 ih
      · rw [if_neg h1]
        by_cases h2 :
            p.2.depends_on.all (fun d => statusOf m d == some "completed")
        · rw [if_pos h2]
          exact List.Sublist.cons₂ p.1 ih
        · rw [if_neg h2]
          exact List.Sublist.cons p.1 ih

/-- The orchestrator ready list is a sublist of the task keys. -/
lemma orchGetReady_sublist (tasks : Tasks) (σ : OrchState) :
    (orchGetReadyTasks tasks σ).Sublist (taskIds tasks) := by
  simp only [orchGetReadyTasks]
  exact (List.filter_sublist _).trans (getReadyTasks_sublist tasks _)

/-- The orchestrator ready list excludes tasks already tracked in
`active_workers` (the final filter of `get_ready_tasks`). -/
lemma mem_orchGetReady_not_active (tasks : Tasks) (σ : OrchState) (x : String)
    (hx : x ∈ orchGetReadyTasks tasks σ) : x ∉ σ.active := by
  simp only [orchGetReadyTasks] at hx
  have hpred := (List.mem_filter.mp hx).2
  rw [Bool.and_eq_true] at hpred
  have h2 := hpred.2
  intro hmem
  rw [Bool.not_eq_true'] at h2
  have h3 : σ.active.contains x = true := by
    simp [List.elem_eq_mem, hmem]
  rw [h3] at h2
  cases h2

/-- The `start_worker` fold of the admit step appends exactly the admitted
ids to the active map. -/
lemma foldl_startWorker_active (o : IterOracle) (l : List String)
    (σ : OrchState) : (l.foldl (startWorker o) σ).active = σ.active ++ l := by
  induction l generalizing σ with
  | nil => simp
  | cons a l ih =>
      rw [List.foldl_cons, ih]
      simp [startWorker]

/-- One loop iteration keeps the active map duplicate-free and within the
`max_workers` bound. -/
lemma runStep_active_inv (tasks : Tasks) (N : Nat) (o : IterOracle)
    (σ : OrchState) (hnd : (taskIds tasks).Nodup)
    (h : σ.active.Nodup ∧ σ.active.length ≤ N) :
    (runStep tasks N σ o).active.Nodup
    ∧ (runStep tasks N σ o).active.length ≤ N := by
  have h1n : (monitorWorkers o σ).active.Nodup := h.1.filter _
  have h1l : (monitorWorkers o σ).active.length ≤ σ.active.length :=
    List.length_filter_le _ _
  unfold runStep admitStep
  set σ1 := monitorWorkers o σ with hσ1
  by_cases hav : ((N : Int) - (σ1.active.length : Int)) > 0
  · rw [if_pos hav]
    set k := ((N : Int) - (σ1.active.length : Int)).toNat with hk
    set taken := (orchGetReadyTasks tasks σ1).take k with htaken
    have hactive : ((taken.foldl (startWorker o) σ1).active) = σ1.active ++ taken :=
      foldl_startWorker_active o taken σ1
    have htsub : taken.Sublist (orchGetReadyTasks tasks σ1) := List.take_sublist _ _
    have htnodup : taken.Nodup :=
      (htsub.trans (orchGetReady_sublist tasks σ1)).nodup hnd
    have hdisj : σ1.active.Disjoint taken := by
      intro a ha hat
      exact mem_orchGetReady_not_active tasks σ1 a (htsub.subset hat) ha
    constructor
    · rw [hactive]
      exact List.Nodup.append h1n htnodup hdisj
    · rw [hactive, List.length_append]
      have htk : taken.length ≤ k := by
        rw [htaken, List.length_take]
        exact min_le_left _ _
      omega
  · rw [if_neg hav]
    exact ⟨h1n, le_trans h1l h.2⟩

/-- C3: in every state reachable by the run loop the number of active workers
is at most the configured `max_workers`: the admit step starts at most
`max_workers - len(active_workers)` new workers per iteration, so the active
map never exceeds the bound (and never holds a task id twice). -/
theorem scheduler_active_workers_bounded (tasks : Tasks) (N : Nat)
    (doc₀ : StateDoc) (os : List IterOracle)
    (hnd : (taskIds tasks).Nodup) :
    (runLoop tasks N doc₀ os).active.Nodup
    ∧ (runLoop tasks N doc₀ os).active.length ≤ N := by
  unfold runLoop
  have h0 : ({ doc := doc₀, active := [] } : OrchState).active.Nodup
      ∧ ({ doc := doc₀, active := [] } : OrchState).active.length ≤ N :=
    ⟨List.nodup_nil, by simp⟩
  generalize ({ doc := doc₀, active := [] } : OrchState) = σ0 at h0 ⊢
  induction os generalizing σ0 with
  | nil => exact h0
  | cons o os ih =>
      rw [List.foldl_cons]
      exact ih _ (runStep_active_inv tasks N o σ0 hnd h0)

/-- C3 witness: a two-iteration run of the one-task graph with
`max_workers = 1` stays within the bound. -/
theorem scheduler_active_workers_bounded_witness :
    (taskIds exTasksA).Nodup
    ∧ (runLoop exTasksA 1 (emptyState "P" "C.md")
        [⟨fun _ => none, fun _ => TokenUsage.zero, "t0", fun _ => 0, fun _ => 1⟩,
         ⟨fun _ => some 0, fun _ => TokenUsage.zero, "t1", fun _ => 0, fun _ => 1⟩]).active.length
        ≤ 1 :=
  ⟨by decide,
   (scheduler_active_workers_bounded exTasksA 1 (emptyState "P" "C.md")
      [⟨fun _ => none, fun _ => TokenUsage.zero, "t0", fun _ => 0, fun _ => 1⟩,
       ⟨fun _ => some 0, fun _ => TokenUsage.zero, "t1", fun _ => 0, fun _ => 1⟩]
      (by decide)).2⟩

/-! ### Cycle-validation correctness (claim C2) -/

lemma hasTask_iff_mem (tasks : Tasks) (t : String) :
    hasTask tasks t = true ↔ t ∈ taskIds tasks := by
  unfold hasTask taskIds
  rw [List.any_eq_true]
  constructor
  · rintro ⟨p, hp, hbeq⟩
    exact List.mem_map.mpr ⟨p, hp, beq_iff_eq.mp hbeq⟩
  · intro hmem
    obtain ⟨p, hp, hpe⟩ := List.mem_map.mp hmem
    exact ⟨p, hp, beq_iff_eq.mpr hpe⟩

/-- A task with a dependency entry is itself registered (its lookup
succeeded). -/
lemma edge_src_mem (tasks : Tasks) (a b : String) (h : Edge tasks a b) :
    a ∈ taskIds tasks := by
  obtain ⟨h1, _⟩ := h
  unfold depsOf at h1
  cases hl : lookupTask tasks a with
  | none => rw [hl] at h1; cases h1
  | some info =>
      unfold lookupTask at hl
      cases hf : tasks.find? (fun p => p.1 == a) with
      | none => rw [hf] at hl; cases hl
      | some p =>
          have hp : (p.1 == a) = true :=
            find?_some_pred (fun p => p.1 == a) tasks p hf
          have hmem : p ∈ tasks := mem_of_find?_some (fun p => p.1 == a) tasks p hf
          exact List.mem_map.mpr ⟨p, hmem, beq_iff_eq.mp hp⟩

lemma transGen_head_edge {r : String → String → Prop} {a b : String}
    (h : Relation.TransGen r a b) : ∃ c, r a c := by
  induction h with
  | single h => exact ⟨_, h⟩
  | tail _ _ ih => exact ih

/-- A node all of whose edges lead to safe nodes is itself safe. -/
lemma safe_of_deps_safe (tasks : Tasks) (t : String)
    (hdeps : ∀ d, Edge tasks t d → ¬ ReachesCycle tasks d) :
    ¬ ReachesCycle tasks t := by
  rintro ⟨u, hpath, hcyc⟩
  rcases hpath.cases_head with rfl | ⟨c, hac, hcb⟩
  · obtain ⟨c, htc, hct⟩ := Relation.TransGen.head'_iff.mp hcyc
    exact hdeps c htc ⟨t, hct, hcyc⟩
  · exact hdeps c hac ⟨u, hcb, hcyc⟩

/-- Along the recursion-stack chain every member has a dependency path to the
top of the stack. -/
lemma chain_path_to_head (tasks : Tasks) (h : String) (l : List String)
    (hc : (h :: l).Chain' (fun a b => Edge tasks b a)) :
    ∀ x ∈ h :: l, Relation.ReflTransGen (Edge tasks) x h := by
  induction l generalizing h with
  | nil =>
      intro x hx
      rcases List.mem_cons.mp hx with rfl | hx2
      · exact Relation.ReflTransGen.refl
      · cases hx2
  | cons b l ih =>
      intro x hx
      have hparts := List.chain'_cons.mp hc
      rcases List.mem_cons.mp hx with rfl | hx2
      · exact Relation.ReflTransGen.refl
      · exact Relation.ReflTransGen.tail (ih b hparts.2 x hx2) hparts.1

/-- Along the recursion-stack chain the bottom of the stack has a dependency
path to every member. -/
lemma chain_path_from_last (tasks : Tasks) (l : List String) (d : String)
    (hc : l.Chain' (fun a b => Edge tasks b a)) :
    ∀ x ∈ l, Relation.ReflTransGen (Edge tasks) (l.getLastD d) x := by
  induction l generalizing d with
  | nil => intro x hx; cases hx
  | cons a l ih =>
      intro x hx
      cases l with
      | nil =>
          rcases List.mem_cons.mp hx with rfl | hx2
          · exact Relation.ReflTransGen.refl
          · cases hx2
      | cons b l2 =>
          have hparts := List.chain'_cons.mp hc
          rw [List.getLastD_cons]
          rcases List.mem_cons.mp hx with heq | hx2
          · rw [heq]
            exact Relation.ReflTransGen.tail
              (ih a hparts.2 b (List.mem_cons_self b l2)) hparts.1
          · exact ih a hparts.2 x hx2

lemma length_filter_le_of_imp {α : Type} (l : List α) (p q : α → Bool)
    (h : ∀ x, p x = true → q x = true) :
    (l.filter p).length ≤ (l.filter q).length := by
  induction l with
  | nil => exact Nat.le_refl 0
  | cons a l ih =>
      rw [List.filter_cons, List.filter_cons]
      by_cases hp : p a = true
      · rw [if_pos hp, if_pos (h a hp)]
        exact Nat.succ_le_succ ih
      · rw [if_neg hp]
        by_cases hq : q a = true
        · rw [if_pos hq]
          exact Nat.le_succ_of_le ih
        · rw [if_neg hq]
          exact ih

lemma contains_eq_true_iff (l : List String) (x : String) :
    l.contains x = true ↔ x ∈ l := by
  simp [List.elem_eq_mem]

/-- Growing the visited set can only shrink the unvisited count, so fuel
sufficiency is preserved. -/
lemma suffFuel_mono (tasks : Tasks) (fuel : Nat) (st st' : DfsState)
    (hsub : ∀ x ∈ st.visited, x ∈ st'.visited)
    (h : SuffFuel tasks fuel st) : SuffFuel tasks fuel st' := by
  unfold SuffFuel at h ⊢
  refine Nat.lt_of_le_of_lt
    (length_filter_le_of_imp (taskIds tasks) _ _ ?_) h
  intro x hx
  rw [Bool.not_eq_true'] at hx ⊢
  rw [Bool.eq_false_iff] at hx ⊢
  intro hc
  exact hx ((contains_eq_true_iff _ _).mpr (hsub x ((contains_eq_true_iff _ _).mp hc)))

/-- Visiting a fresh registered task strictly decreases the unvisited count. -/
lemma filter_unvisited_lt (keys : List String) (t : String) (V : List String)
    (htk : t ∈ keys) (htv : t ∉ V) :
    (keys.filter (fun x => !(t :: V).contains x)).length
      < (keys.filter (fun x => !V.contains x)).length := by
  induction keys with
  | nil => cases htk
  | cons a l ih =>
      rw [List.filter_cons, List.filter_cons]
      by_cases hat : a = t
      · subst hat
        rw [if_neg (by simp), if_pos (by
          rw [Bool.not_eq_true']
          rw [Bool.eq_false_iff]
          intro hc
          exact htv ((contains_eq_true_iff _ _).mp hc))]
        have hle := length_filter_le_of_imp l
          (fun x => !(a :: V).contains x) (fun x => !V.contains x) (by
            intro x hx
            rw [Bool.not_eq_true'] at hx ⊢
            rw [Bool.eq_false_iff] at hx ⊢
            intro hc
            exact hx ((contains_eq_true_iff _ _).mpr
              (List.mem_cons_of_mem a ((contains_eq_true_iff _ _).mp hc))))
        exact Nat.lt_succ_of_le hle
      · have htl : t ∈ l := by
          rcases List.mem_cons.mp htk with h | h
          · exact absurd h.symm hat
          · exact h
        have hhead : ((!(t :: V).contains a) = true) ↔ ((!V.contains a) = true) := by
          rw [Bool.not_eq_true', Bool.not_eq_true']
          rw [Bool.eq_false_iff, Bool.eq_false_iff]
          constructor
          · intro h1 hc
            exact h1 ((contains_eq_true_iff _ _).mpr
              (List.mem_cons_of_mem t ((contains_eq_true_iff _ _).mp hc)))
          · intro h1 hc
            rcases List.mem_cons.mp ((contains_eq_true_iff _ _).mp hc) with h2 | h2
            · exact hat h2
            · exact h1 ((contains_eq_true_iff _ _).mpr h2)
        by_cases hv : (!V.contains a) = true
        · rw [if_pos hv, if_pos (hhead.mpr hv)]
          exact Nat.succ_lt_succ (ih htl)
        · rw [if_neg hv, if_neg (fun hx => hv (hhead.mp hx))]
          exact ih htl

/-- Pushing a fresh registered task onto the search state preserves the
invariant. -/
lemma dfsInv_push (tasks : Tasks) (t : String) (st : DfsState)
    (hinv : DfsInv tasks st) (hpre : CallPre tasks t st)
    (hrec : t ∉ st.recStack) (_hvis : t ∉ st.visited) :
    DfsInv tasks ⟨t :: st.visited, t :: st.recStack⟩ := by
  refine ⟨?_, ?_, ?_, ?_, ?_⟩
  · intro x hx
    rcases List.mem_cons.mp hx with heq | hx2
    · rw [heq]; exact List.mem_cons_self t _
    · exact List.mem_cons_of_mem t (hinv.stack_sub x hx2)
  · intro x hx
    rcases List.mem_cons.mp hx with heq | hx2
    · rw [heq]; exact hpre.1
    · exact hinv.visited_keys x hx2
  · show (t :: st.recStack).Chain' (fun a b => Edge tasks b a)
    rcases hpre.2 with hnil | ⟨h, rest, hstack, hedge⟩
    · rw [hnil]; exact List.chain'_singleton t
    · rw [hstack]
      exact List.chain'_cons.mpr ⟨hedge, hstack ▸ hinv.stack_chain⟩
  · exact List.nodup_cons.mpr ⟨hrec, hinv.stack_nodup⟩
  · intro x hx hnx
    rcases List.mem_cons.mp hx with heq | hx2
    · exact absurd (by rw [heq]; exact List.mem_cons_self t st.recStack) hnx
    · exact hinv.black_safe x hx2 (fun hc => hnx (List.mem_cons_of_mem t hc))

/-- Popping the finished task restores the invariant, with the finished task
now safely black. -/
lemma dfsInv_pop (tasks : Tasks) (t : String) (st stg : DfsState)
    (hinv : DfsInv tasks st) (hinvg : DfsInv tasks stg)
    (hstk2 : stg.recStack = t :: st.recStack)
    (hvisg : ∀ x ∈ st.visited, x ∈ stg.visited)
    (hsafe_t : ¬ ReachesCycle tasks t) :
    DfsInv tasks ⟨stg.visited, stg.recStack.erase t⟩ := by
  have herase : stg.recStack.erase t = st.recStack := by
    rw [hstk2]; exact List.erase_cons_head t st.recStack
  refine ⟨?_, ?_, ?_, ?_, ?_⟩
  · show ∀ x ∈ stg.recStack.erase t, x ∈ stg.visited
    rw [herase]
    intro x hx
    exact hvisg x (hinv.stack_sub x hx)
  · show ∀ x ∈ stg.visited, x ∈ taskIds tasks
    exact hinvg.visited_keys
  · show (stg.recStack.erase t).Chain' (fun a b => Edge tasks b a)
    rw [herase]
    exact hinv.stack_chain
  · show (stg.recStack.erase t).Nodup
    rw [herase]
    exact hinv.stack_nodup
  · show ∀ x ∈ stg.visited, x ∉ stg.recStack.erase t → ¬ ReachesCycle tasks x
    rw [herase]
    intro x hx hnx
    by_cases hxt : x = t
    · rw [hxt]; exact hsafe_t
    · refine hinvg.black_safe x hx ?_
      rw [hstk2]
      intro hc
      rcases List.mem_cons.mp hc with h2 | h2
      · exact hxt h2
      · exact hnx h2

/-- Specification of the dependency loop of `has_cycle`, given the
specification of the recursive calls at the current fuel level. -/
lemma goDeps_spec (tasks : Tasks) (fuel : Nat)
    (IH : ∀ t st, SuffFuel tasks fuel st → DfsInv tasks st → CallPre tasks t st →
      ∀ res st', hasCycleF tasks fuel t st = (res, st') →
        (res = true → ReachesCycle tasks (dfsRoot st t))
        ∧ (res = false →
            DfsInv tasks st' ∧ st'.recStack = st.recStack
            ∧ (∀ x ∈ st.visited, x ∈ st'.visited)
            ∧ t ∈ st'.visited ∧ ¬ ReachesCycle tasks t)) :
    ∀ ds h rest st, SuffFuel tasks fuel st → DfsInv tasks st →
      st.recStack = h :: rest →
      (∀ d ∈ ds, d ∈ depsOf tasks h) →
      ∀ res st', goDeps tasks (hasCycleF tasks fuel) ds st = (res, st') →
        (res = true → ReachesCycle tasks (st.recStack.getLastD h))
        ∧ (res = false →
            DfsInv tasks st' ∧ st'.recStack = st.recStack
            ∧ (∀ x ∈ st.visited, x ∈ st'.visited)
            ∧ ∀ d ∈ ds, hasTask tasks d = true → ¬ ReachesCycle tasks d) := by
  intro ds
  induction ds with
  | nil =>
      intro h rest st _ hinv _ _ res st' heq
      simp only [goDeps] at heq
      injection heq with h1 h2
      subst h1; subst h2
      refine ⟨fun ht => absurd ht (by decide),
        fun _ => ⟨hinv, rfl, fun x hx => hx, ?_⟩⟩
      intro d hd
      cases hd
  | cons d ds ih =>
      intro h rest st hsuff hinv hstack hds res st' heq
      simp only [goDeps] at heq
      by_cases hreg : hasTask tasks d = true
      · rw [if_pos hreg] at heq
        have hdkeys : d ∈ taskIds tasks := (hasTask_iff_mem tasks d).mp hreg
        have hedge : Edge tasks h d := ⟨hds d (List.mem_cons_self d ds), hdkeys⟩
        have hpre : CallPre tasks d st := ⟨hdkeys, Or.inr ⟨h, rest, hstack, hedge⟩⟩
        cases hc : hasCycleF tasks fuel d st with
        | mk rc stc =>
            rw [hc] at heq
            cases rc with
            | true =>
                replace heq : ((true, stc) : Bool × DfsState) = (res, st') := heq
                injection heq with h1 h2
                subst h1; subst h2
                refine ⟨fun _ => ?_, fun hf => absurd hf (by decide)⟩
                have hr := (IH d st hsuff hinv hpre true stc hc).1 rfl
                unfold dfsRoot at hr
                rw [hstack, List.getLastD_cons] at hr ⊢
                exact hr
            | false =>
                replace heq :
                    goDeps tasks (hasCycleF tasks fuel) ds stc = (res, st') := heq
                obtain ⟨hinv1, hstk1, hvis1, hdvis, hdsafe⟩ :=
                  (IH d st hsuff hinv hpre false stc hc).2 rfl
                have hsuff1 : SuffFuel tasks fuel stc :=
                  suffFuel_mono tasks fuel st stc hvis1 hsuff
                have hstack1 : stc.recStack = h :: rest := hstk1.trans hstack
                have hrest := ih h rest stc hsuff1 hinv1 hstack1
                  (fun d2 hd2 => hds d2 (List.mem_cons_of_mem d hd2)) res st' heq
                constructor
                · intro htrue
                  have hr := hrest.1 htrue
                  rw [hstk1] at hr
                  exact hr
                · intro hfalse
                  obtain ⟨hinv2, hstk2, hvis2, hsafe2⟩ := hrest.2 hfalse
                  refine ⟨hinv2, hstk2.trans hstk1,
                    fun x hx => hvis2 x (hvis1 x hx), ?_⟩
                  intro d2 hd2 hreg2
                  rcases List.mem_cons.mp hd2 with heq2 | hd2'
                  · rw [heq2]; exact hdsafe
                  · exact hsafe2 d2 hd2' hreg2
      · rw [if_neg hreg] at heq
        have hrest := ih h rest st hsuff hinv hstack
          (fun d2 hd2 => hds d2 (List.mem_cons_of_mem d hd2)) res st' heq
        refine ⟨hrest.1, fun hfalse => ?_⟩
        obtain ⟨hinv2, hstk2, hvis2, hsafe2⟩ := hrest.2 hfalse
        refine ⟨hinv2, hstk2, hvis2, ?_⟩
        intro d2 hd2 hreg2
        rcases List.mem_cons.mp hd2 with heq2 | hd2'
        · rw [heq2] at hreg2; exact absurd hreg2 hreg
        · exact hsafe2 d2 hd2' hreg2

/-- Full specification of `has_cycle`: a true result means the root of the
current search is implicated in a cycle; a false result preserves the
invariant, leaves the stack unchanged, grows the visited set, and certifies
that no cycle is reachable from the argument. -/
lemma hasCycleF_spec (tasks : Tasks) :
    ∀ fuel t st, SuffFuel tasks fuel st → DfsInv tasks st → CallPre tasks t st →
      ∀ res st', hasCycleF tasks fuel t st = (res, st') →
        (res = true → ReachesCycle tasks (dfsRoot st t))
        ∧ (res = false →
            DfsInv tasks st' ∧ st'.recStack = st.recStack
            ∧ (∀ x ∈ st.visited, x ∈ st'.visited)
            ∧ t ∈ st'.visited ∧ ¬ ReachesCycle tasks t) := by
  intro fuel
  induction fuel with
  | zero =>
      intro t st hsuff
      exact absurd hsuff (by simp [SuffFuel])
  | succ fuel ihf =>
      intro t st hsuff hinv hpre res st' heq
      simp only [hasCycleF] at heq
      by_cases hrec : t ∈ st.recStack
      · rw [if_pos hrec] at heq
        replace heq : ((true, st) : Bool × DfsState) = (res, st') := heq
        injection heq with h1 h2
        subst h1; subst h2
        refine ⟨fun _ => ?_, fun hf => absurd hf (by decide)⟩
        rcases hpre.2 with hnil | ⟨h, rest, hstack, hedge⟩
        · rw [hnil] at hrec; cases hrec
        · have hchain : (h :: rest).Chain' (fun a b => Edge tasks b a) := by
            rw [← hstack]; exact hinv.stack_chain
          have hmem : t ∈ h :: rest := hstack ▸ hrec
          have hpath1 : Relation.ReflTransGen (Edge tasks) t h :=
            chain_path_to_head tasks h rest hchain t hmem
          have hcyc : Relation.TransGen (Edge tasks) t t :=
            Relation.TransGen.tail' hpath1 hedge
          have hpath2 : Relation.ReflTransGen (Edge tasks)
              ((h :: rest).getLastD t) t :=
            chain_path_from_last tasks (h :: rest) t hchain t hmem
          unfold dfsRoot
          rw [hstack]
          exact ⟨t, hpath2, hcyc⟩
      · rw [if_neg hrec] at heq
        by_cases hvis : t ∈ st.visited
        · rw [if_pos hvis] at heq
          replace heq : ((false, st) : Bool × DfsState) = (res, st') := heq
          injection heq with h1 h2
          subst h1; subst h2
          exact ⟨fun ht => absurd ht (by decide),
            fun _ => ⟨hinv, rfl, fun x hx => hx, hvis,
              hinv.black_safe t hvis hrec⟩⟩
        · rw [if_neg hvis] at heq
          have hinv1 : DfsInv tasks ⟨t :: st.visited, t :: st.recStack⟩ :=
            dfsInv_push tasks t st hinv hpre hrec hvis
          have hsuff1 : SuffFuel tasks fuel ⟨t :: st.visited, t :: st.recStack⟩ := by
            unfold SuffFuel at hsuff ⊢
            exact Nat.lt_of_lt_of_le
              (filter_unvisited_lt (taskIds tasks) t st.visited hpre.1 hvis)
              (Nat.lt_succ_iff.mp hsuff)
          cases hgo : goDeps tasks (hasCycleF tasks fuel) (depsOf tasks t)
              ⟨t :: st.visited, t :: st.recStack⟩ with
          | mk rg stg =>
              rw [hgo] at heq
              have hgspec := goDeps_spec tasks fuel ihf (depsOf tasks t) t
                st.recStack ⟨t :: st.visited, t :: st.recStack⟩ hsuff1 hinv1 rfl
                (fun d2 hd2 => hd2) rg stg hgo
              cases rg with
              | true =>
                  replace heq : ((true, stg) : Bool × DfsState) = (res, st') := heq
                  injection heq with h1 h2
                  subst h1; subst h2
                  refine ⟨fun _ => ?_, fun hf => absurd hf (by decide)⟩
                  have hr := hgspec.1 rfl
                  rw [List.getLastD_cons] at hr
                  unfold dfsRoot
                  exact hr
              | false =>
                  replace heq :
                      ((false, (⟨stg.visited, stg.recStack.erase t⟩ : DfsState))
                          : Bool × DfsState)
                        = (res, st') := heq
                  injection heq with h1 h2
                  subst h1; subst h2
                  obtain ⟨hinv2, hstk2a, hvis2a, hdeps_safe⟩ := hgspec.2 rfl
                  have hstk2 : stg.recStack = t :: st.recStack := hstk2a
                  have hvis2 : ∀ x ∈ t :: st.visited, x ∈ stg.visited := hvis2a
                  have hsafe_t : ¬ ReachesCycle tasks t := by
                    apply safe_of_deps_safe
                    intro d2 hedge2
                    exact hdeps_safe d2 hedge2.1
                      ((hasTask_iff_mem tasks d2).mpr hedge2.2)
                  have hvissub : ∀ x ∈ st.visited, x ∈ stg.visited :=
                    fun x hx => hvis2 x (List.mem_cons_of_mem t hx)
                  refine ⟨fun ht => absurd ht (by decide), fun _ => ?_⟩
                  refine ⟨dfsInv_pop tasks t st stg hinv hinv2 hstk2 hvissub hsafe_t,
                    ?_, ?_, ?_, hsafe_t⟩
                  · show stg.recStack.erase t = st.recStack
                    rw [hstk2]
                    exact List.erase_cons_head t st.recStack
                  · show ∀ x ∈ st.visited, x ∈ stg.visited
                    exact hvissub
                  · show t ∈ stg.visited
                    exact hvis2 t (List.mem_cons_self t st.visited)

/-- Specification of the outer validation loop: an error names a task
implicated in a cycle; success leaves every processed task visited and
certified safe. -/
lemma validateGo_spec (tasks : Tasks) :
    ∀ ts st, (∀ t ∈ ts, t ∈ taskIds tasks) → DfsInv tasks st →
      st.recStack = [] →
      ∀ out, validateGo tasks ts st = out →
        (∀ e, out = .error e → ∃ t, e = cycleMsg t ∧ ReachesCycle tasks t)
        ∧ (out = .ok () →
            ∃ st2, DfsInv tasks st2 ∧ st2.recStack = []
              ∧ (∀ x ∈ st.visited, x ∈ st2.visited)
              ∧ ∀ t ∈ ts, t ∈ st2.visited) := by
  intro ts
  induction ts with
  | nil =>
      intro st _ hinv hstk out hout
      simp only [validateGo] at hout
      refine ⟨?_, ?_⟩
      · intro e he
        rw [← hout] at he
        cases he
      · intro _
        exact ⟨st, hinv, hstk, fun x hx => hx, fun t ht => absurd ht (by simp)⟩
  | cons t ts ih =>
      intro st hkeys hinv hstk out hout
      simp only [validateGo] at hout
      by_cases hv : t ∈ st.visited
      · rw [if_pos hv] at hout
        have hrest := ih st (fun u hu => hkeys u (List.mem_cons_of_mem t hu))
          hinv hstk out hout
        refine ⟨hrest.1, fun hok => ?_⟩
        obtain ⟨st2, hinv2, hstk2, hsub2, hall2⟩ := hrest.2 hok
        refine ⟨st2, hinv2, hstk2, hsub2, ?_⟩
        intro u hu
        rcases List.mem_cons.mp hu with heq | hu2
        · rw [heq]; exact hsub2 t hv
        · exact hall2 u hu2
      · rw [if_neg hv] at hout
        have hsuff : SuffFuel tasks (tasks.length + 1) st := by
          unfold SuffFuel
          have h1 := List.length_filter_le
            (fun x => !st.visited.contains x) (taskIds tasks)
          have h2 : (taskIds tasks).length = tasks.length := List.length_map _ _
          omega
        have hpre : CallPre tasks t st := ⟨hkeys t (List.mem_cons_self t ts), Or.inl hstk⟩
        cases hc : hasCycleF tasks (tasks.length + 1) t st with
        | mk rc stc =>
            rw [hc] at hout
            have hcspec := hasCycleF_spec tasks (tasks.length + 1) t st
              hsuff hinv hpre rc stc hc
            cases rc with
            | true =>
                replace hout : (Except.error (cycleMsg t) : Except String Unit) = out :=
                  hout
                refine ⟨?_, ?_⟩
                · intro e he
                  rw [← hout] at he
                  injection he with he2
                  have hr := hcspec.1 rfl
                  unfold dfsRoot at hr
                  rw [hstk] at hr
                  exact ⟨t, he2.symm, hr⟩
                · intro hok
                  rw [← hout] at hok
                  cases hok
            | false =>
                replace hout : validateGo tasks ts stc = out := hout
                obtain ⟨hinv1, hstk1, hvis1, htvis, _⟩ := hcspec.2 rfl
                have hrest := ih stc
                  (fun u hu => hkeys u (List.mem_cons_of_mem t hu))
                  hinv1 (hstk1.trans hstk) out hout
                refine ⟨hrest.1, fun hok => ?_⟩
                obtain ⟨st2, hinv2, hstk2, hsub2, hall2⟩ := hrest.2 hok
                refine ⟨st2, hinv2, hstk2, fun x hx => hsub2 x (hvis1 x hx), ?_⟩
                intro u hu
                rcases List.mem_cons.mp hu with heq | hu2
                · rw [heq]; exact hsub2 t htvis
                · exact hall2 u hu2

/-- C2: cycle validation at `DAG` construction is sound and complete. For
every task dictionary containing a dependency cycle among registered tasks,
construction raises the structural `ValueError` whose message names a task
implicated in the cycle (it has a dependency path to the cycle), and no `DAG`
value is produced; for every acyclic dictionary construction succeeds with
the tasks stored unchanged (so no cycle error can arise later during
scheduling, whose operations are total). -/
theorem dag_construction_cycle_validation (tasks : Tasks) :
    (HasCycle tasks →
      ∃ t, DAG.build tasks = .error (cycleMsg t) ∧ ReachesCycle tasks t)
    ∧ (¬ HasCycle tasks → DAG.build tasks = .ok ⟨tasks⟩) := by
  have hinit : DfsInv tasks ⟨[], []⟩ := by
    refine ⟨?_, ?_, ?_, ?_, ?_⟩
    · intro x hx; cases hx
    · intro x hx; cases hx
    · exact List.chain'_nil
    · exact List.nodup_nil
    · intro x hx; cases hx
  have hspec := validateGo_spec tasks (taskIds tasks) ⟨[], []⟩
    (fun t ht => ht) hinit rfl
  constructor
  · intro hcyc
    cases hval : validateNoCycles tasks with
    | ok u =>
        exfalso
        cases u
        have hval2 : validateGo tasks (taskIds tasks) ⟨[], []⟩ = .ok () := hval
        obtain ⟨st2, hinv2, hstk2, _, hall⟩ := (hspec _ hval2).2 rfl
        obtain ⟨u0, hcyc0⟩ := hcyc
        obtain ⟨c, hedge⟩ := transGen_head_edge hcyc0
        have hu0 : u0 ∈ taskIds tasks := edge_src_mem tasks u0 c hedge
        have hsafe := hinv2.black_safe u0 (hall u0 hu0)
          (by rw [hstk2]; exact List.not_mem_nil u0)
        exact hsafe ⟨u0, Relation.ReflTransGen.refl, hcyc0⟩
    | error e =>
        have hval2 : validateGo tasks (taskIds tasks) ⟨[], []⟩ = .error e := hval
        obtain ⟨t, he, hreach⟩ := (hspec _ hval2).1 e rfl
        refine ⟨t, ?_, hreach⟩
        unfold DAG.build
        rw [hval, he]
  · intro hncyc
    cases hval : validateNoCycles tasks with
    | ok u =>
        cases u
        unfold DAG.build
        rw [hval]
    | error e =>
        exfalso
        have hval2 : validateGo tasks (taskIds tasks) ⟨[], []⟩ = .error e := hval
        obtain ⟨t, _, hreach⟩ := (hspec _ hval2).1 e rfl
        obtain ⟨u, _, hcycu⟩ := hreach
        exact hncyc ⟨u, hcycu⟩

/-- C2 witness: the two-task cycle A → B → A fails construction with the
error naming A, and the acyclic one-task graph builds successfully. -/
theorem dag_construction_cycle_validation_witness :
    (∃ t, DAG.build exTasksCyc = .error (cycleMsg t) ∧ ReachesCycle exTasksCyc t)
    ∧ DAG.build exTasksA = .ok ⟨exTasksA⟩ := by
  constructor
  · refine (dag_construction_cycle_validation exTasksCyc).1 ?_
    have e1 : Edge exTasksCyc "A" "B" := ⟨by decide, by decide⟩
    have e2 : Edge exTasksCyc "B" "A" := ⟨by decide, by decide⟩
    exact ⟨"A", Relation.TransGen.head e1 (Relation.TransGen.single e2)⟩
  · refine (dag_construction_cycle_validation exTasksA).2 ?_
    rintro ⟨u, hcyc⟩
    obtain ⟨c, hedge⟩ := transGen_head_edge hcyc
    obtain ⟨h1, _⟩ := hedge
    rcases eq_or_ne u "A" with heq | hne
    · rw [heq] at h1
      have hz : depsOf exTasksA "A" = [] := rfl
      rw [hz] at h1
      cases h1
    · have hz : depsOf exTasksA u = [] := by
        unfold depsOf lookupTask exTasksA
        rw [find?_cons_neg (fun p => p.1 == u) ("A", infoNoDeps) []
          (beq_eq_false_iff_ne.mpr (Ne.symm hne))]
        rfl
      rw [hz] at h1
      cases h1

end Nova
